import Mathlib

/-!
ID_Generator: a Snowflake-style identifier generator.

A shallow embedding of `generator.go` (configuration repair in `NewIDGenerator`,
the state transition of `GetNextID`, the bit packing of `newID`), of the priority
queue of `id_queue.go` driven by `container/heap`, and of `id_factory.go`
(`NewIDFactory`, `hireWorkers`, the loop of `doWork`, the loop of `Consume`), and
theorems about them.

Conventions of the embedding:

* `uint16` and `uint64` values are natural numbers, every arithmetic operation
  of the source that can leave the word is reduced modulo `2 ^ 16` or `2 ^ 64`
  where the source wraps;
* `int64` values (time stamps, durations in nanoseconds) are integers, a
  subtraction or addition of the source is wrapped into the `int64` range by
  `wrapInt64`;
* the three impure inputs of the source are explicit arguments: the result of
  `GetOutboundIP`, and every reading of `time.Now().UnixNano()`;
* a Go result `(*T, error)` is an `Except GenError T`, the error messages of
  the source are the constructors of `GenError`;
* a slice is a list, and a loop of the source is a recursion on a counter that
  the loop cannot exhaust;
* the goroutines of `Produce` and `Consume` touch the queue under one mutex only, so
  a concurrent run is a schedule: a list of steps, each a push by a worker or one round
  of the loop of `Consume`; theorems about runs hold for every schedule.
-/

namespace IDGenerator

/-! ## Machine words -/

/-- Left shift of a `uint64` by a shift count: bits shifted above bit 63 are lost. -/
def shl64 (x n : Nat) : Nat := (x * 2 ^ n) % 2 ^ 64

/-- Addition on `uint64`. -/
def add64 (x y : Nat) : Nat := (x + y) % 2 ^ 64

/-- Subtraction on `uint64`. -/
def sub64 (x y : Nat) : Nat := (x + 2 ^ 64 - y % 2 ^ 64) % 2 ^ 64

/-- Addition on `uint16`. -/
def add16 (x y : Nat) : Nat := (x + y) % 2 ^ 16

/-- Reduction of an integer into the `int64` range (wrap-around of the two-complement word). -/
def wrapInt64 (x : Int) : Int := (x + 2 ^ 63) % 2 ^ 64 - 2 ^ 63

/-! ## Constants and data types of `generator.go` -/

/-- Default width of the time field. -/
def TIMEBIT : Nat := 38

/-- Default width of the machine field. -/
def MACHINEBIT : Nat := 16

/-- Default width of the sequence field. -/
def SEQUENCEBIT : Nat := 10

/-- Default generation interval, `time.Millisecond` in nanoseconds. -/
def TIMEUNIT : Int := 1000000

/-- Configuration of an ID generator (`IDConfig`); `GenerationRate` is a
`time.Duration`, a number of nanoseconds. -/
structure IDConfig where
  TimeBit : Nat
  MachineBit : Nat
  SequenceBit : Nat
  MachineID : Nat
  GenerationRate : Int
  deriving DecidableEq

/-- State of an ID generator (`Generator`, without its lock). -/
structure Generator where
  seqenceNum : Nat
  machineID : Nat
  timeCounter : Nat
  timeBit : Nat
  machineBit : Nat
  sequenceBit : Nat
  rate : Int
  lastTimeStamp : Int
  deriving DecidableEq

/-- An identifier with the time stamp of its creation (`ID`). -/
structure ID where
  IDNum : Nat
  timestamp : Int
  deriving DecidableEq

/-- The errors the source creates with `errors.New`. -/
inductive GenError where
  /-- Message: "Failed to obtain IP address. Please provide your own unique machine ID". -/
  | lookupFailed
  /-- Message: "Please check the bits you set for config. Single >= 64 or sum > 64 is not
  allowed". -/
  | invalidBits
  /-- Message: "Please check if the clock is set properly". -/
  | clockRegression
  /-- Message: "Due to time expiration, this generator is no longer valid for generating
  unique IDs please create a new one to use". -/
  | expired
  deriving DecidableEq

deriving instance DecidableEq for Except

/-! ## `NewIDGenerator` -/

/-- The configuration `NewIDGenerator` falls back to, built from the looked-up address. -/
def defaultConfig (ip : Nat) : IDConfig :=
  { TimeBit := TIMEBIT
    MachineBit := MACHINEBIT
    SequenceBit := SEQUENCEBIT
    GenerationRate := TIMEUNIT
    MachineID := ip }

/-- The guard of `NewIDGenerator` that rejects a configuration. -/
def bitsRejected (c : IDConfig) : Prop :=
  c.TimeBit ≥ 64 ∨ c.MachineBit ≥ 64 ∨ c.SequenceBit ≥ 64 ∨
    add16 (add16 c.TimeBit c.MachineBit) c.SequenceBit > 64

instance (c : IDConfig) : Decidable (bitsRejected c) := by
  unfold bitsRejected; infer_instance

/-- The machine field chosen by `NewIDGenerator`, as the pair `(machineBit, machineID)`.
The second branch of the source assigns `machineID` only, `machineBit` keeps the
zero value of the freshly allocated generator. -/
def machineFields (c d : IDConfig) : Nat × Nat :=
  if c.MachineBit = 0 then (d.MachineBit, c.MachineID)
  else if c.MachineBit > 0 ∧ c.MachineID ≥ shl64 1 c.MachineBit then (0, d.MachineID)
  else (c.MachineBit, c.MachineID)

/-- `NewIDGenerator idConfig`: `lookup` is the result of `GetOutboundIP ()`, `now` the
reading of the clock stored in `lastTimeStamp`; `none` is the nil configuration. -/
def NewIDGenerator (idConfig : Option IDConfig) (lookup : Except GenError Nat) (now : Int) :
    Except GenError Generator :=
  match lookup with
  | .error e => .error e
  | .ok ip =>
    let d := defaultConfig ip
    let c := idConfig.getD d
    if bitsRejected c then .error .invalidBits
    else
      .ok
        { seqenceNum := 0
          timeCounter := 0
          machineBit := (machineFields c d).1
          machineID := (machineFields c d).2
          rate := if c.GenerationRate ≤ 0 then d.GenerationRate else c.GenerationRate
          timeBit := if c.TimeBit = 0 then d.TimeBit else c.TimeBit
          sequenceBit := if c.SequenceBit = 0 then d.SequenceBit else c.SequenceBit
          lastTimeStamp := now }

/-! ## `newID` and `GetNextID` -/

/-- `g.newID ()`: the three fields packed into one `uint64`. -/
def newID (g : Generator) : Nat :=
  let timeBits := shl64 g.timeCounter (add16 g.machineBit g.sequenceBit)
  let machineBits := shl64 g.machineID g.sequenceBit
  timeBits ||| machineBits ||| g.seqenceNum

/-- What one call of `GetNextID` leaves behind: the generator after the call, the
duration handed to `time.Sleep` when the call slept, and the returned pair. -/
structure Outcome where
  gen : Generator
  slept : Option Int
  result : Except GenError ID
  deriving DecidableEq

/-- First step of `GetNextID`, "increases time counter after an interval": once a full
interval has elapsed the time counter is incremented and the clock reading is recorded. -/
def advanceInterval (g : Generator) (elapsedTime curTime : Int) : Generator :=
  if elapsedTime ≥ g.rate then
    { g with timeCounter := add64 g.timeCounter 1, lastTimeStamp := curTime }
  else g

/-- Last step of `GetNextID`, "seq number needs to roll over if reaching the limit": the
generator with its new sequence counter, and the duration handed to `time.Sleep` when the
call sleeps until the next round. -/
def advanceSequence (g : Generator) (elapsedTime curTime : Int) : Generator × Option Int :=
  if g.seqenceNum ≥ sub64 (shl64 1 g.sequenceBit) 1 then
    if elapsedTime < g.rate then
      ({ g with seqenceNum := 0, timeCounter := add64 g.timeCounter 1 },
        some (wrapInt64 (wrapInt64 (g.lastTimeStamp + g.rate) - curTime)))
    else ({ g with seqenceNum := 0 }, none)
  else ({ g with seqenceNum := add64 g.seqenceNum 1 }, none)

/-- `g.GetNextID ()`, with `curTime` the clock reading at the start of the call and
`stamp` the reading stored in the returned identifier. -/
def GetNextID (g : Generator) (curTime stamp : Int) : Outcome :=
  let elapsedTime := wrapInt64 (curTime - g.lastTimeStamp)
  let g1 := advanceInterval g elapsedTime curTime
  if elapsedTime < 0 then
    { gen := g1, slept := none, result := .error .clockRegression }
  else if g1.timeCounter ≥ shl64 1 g1.timeBit then
    { gen := g1, slept := none, result := .error .expired }
  else
    let r := advanceSequence g1 elapsedTime curTime
    { gen := r.1, slept := r.2, result := .ok { IDNum := newID r.1, timestamp := stamp } }

/-- Successive calls of `GetNextID` on one generator, one pair of clock readings
`(curTime, stamp)` per call; the results in call order. -/
def runCalls (g : Generator) : List (Int × Int) → List (Except GenError ID)
  | [] => []
  | r :: rest => (GetNextID g r.1 r.2).result :: runCalls (GetNextID g r.1 r.2).gen rest

/-- The identifiers of the successful calls among the results. -/
def successes : List (Except GenError ID) → List ID
  | [] => []
  | .ok i :: rest => i :: successes rest
  | .error _ :: rest => successes rest

/-- The identifiers of the successful calls made before the first expiry error. -/
def validLifetime : List (Except GenError ID) → List ID
  | [] => []
  | .ok i :: rest => i :: validLifetime rest
  | .error .expired :: _ => []
  | .error _ :: rest => validLifetime rest

/-- A configuration that needs no repair: non-zero widths, each below 64, their sum at
most 64, a machine identity that fits its field and a positive interval. -/
def ValidConfig (c : IDConfig) : Prop :=
  0 < c.TimeBit ∧ 0 < c.MachineBit ∧ 0 < c.SequenceBit ∧
  c.TimeBit < 64 ∧ c.MachineBit < 64 ∧ c.SequenceBit < 64 ∧
  c.TimeBit + c.MachineBit + c.SequenceBit ≤ 64 ∧
  c.MachineID < 2 ^ c.MachineBit ∧ 0 < c.GenerationRate

instance (c : IDConfig) : Decidable (ValidConfig c) := by
  unfold ValidConfig; infer_instance

/-- The fields of a generator fit the layout of `newID`: the sequence width is below 64,
the machine and sequence fields together take at most 64 bits, and the machine identity
and the sequence counter are inside their fields. -/
def FieldsFit (g : Generator) : Prop :=
  g.sequenceBit < 64 ∧ g.machineBit + g.sequenceBit ≤ 64 ∧
  g.machineID < 2 ^ g.machineBit ∧ g.seqenceNum < 2 ^ g.sequenceBit

/-- A generator of the valid configuration `c` that has not expired: it carries the
configuration unchanged, its sequence counter is inside its field, and its time counter
is below `2 ^ timeBit`, or has just reached `2 ^ timeBit` in a call that reset the
sequence counter. -/
def Live (c : IDConfig) (g : Generator) : Prop :=
  ValidConfig c ∧
  g.timeBit = c.TimeBit ∧ g.machineBit = c.MachineBit ∧ g.sequenceBit = c.SequenceBit ∧
  g.machineID = c.MachineID ∧ g.rate = c.GenerationRate ∧
  g.seqenceNum < 2 ^ g.sequenceBit ∧
  (g.timeCounter < 2 ^ g.timeBit ∨ (g.timeCounter = 2 ^ g.timeBit ∧ g.seqenceNum = 0))

/-- Order of two generator states by time counter, then sequence counter. -/
def Before (a b : Generator) : Prop :=
  a.timeCounter < b.timeCounter ∨
    (a.timeCounter = b.timeCounter ∧ a.seqenceNum < b.seqenceNum)

/-- The 64-bit time counter does not wrap around along the successive calls of
`GetNextID`: it is incremented modulo `2 ^ 64` only, so it wraps exactly when it decreases
from the state before a call to the state after it. -/
def CounterNeverWraps (g : Generator) : List (Int × Int) → Prop
  | [] => True
  | r :: rest =>
    g.timeCounter ≤ (GetNextID g r.1 r.2).gen.timeCounter ∧
      CounterNeverWraps (GetNextID g r.1 r.2).gen rest

/-- Deciding `CounterNeverWraps` call by call. -/
def decCounterNeverWraps :
    (g : Generator) → (rs : List (Int × Int)) → Decidable (CounterNeverWraps g rs)
  | _, [] => isTrue trivial
  | g, r :: rest =>
    @instDecidableAnd _ _ _ (decCounterNeverWraps (GetNextID g r.1 r.2).gen rest)

instance (g : Generator) (rs : List (Int × Int)) : Decidable (CounterNeverWraps g rs) :=
  decCounterNeverWraps g rs

/-- The expiry check of `GetNextID` fails for the generator: "exceeds time limit". -/
def Expired (g : Generator) : Prop :=
  g.timeCounter ≥ shl64 1 g.timeBit

/-! ## The priority queue of `id_queue.go` -/

instance : Inhabited ID := ⟨⟨0, 0⟩⟩

/-- The order of the queue on two identifiers: "same time, smaller id first", else the
earlier time stamp first. -/
def lessID (a b : ID) : Bool :=
  if a.timestamp = b.timestamp then decide (a.IDNum < b.IDNum)
  else decide (a.timestamp < b.timestamp)

/-- A `PriorityQueue` is a slice of identifiers. The source holds pointers to identifiers;
every pointer pushed by the factory is the non-nil result of a successful `GetNextID`. -/
abbrev PriorityQueue := List ID

namespace PriorityQueue

/-- Element `i` of the slice. Go panics on an index outside the slice; the heap
operations only use indices inside it, and the embedding returns the zero identifier
elsewhere. -/
def item (pq : PriorityQueue) (i : Nat) : ID := pq.getD i default

/-- `pq.Len ()`. -/
def Len (pq : PriorityQueue) : Nat := pq.length

/-- `pq.Less (i, j)`. -/
def Less (pq : PriorityQueue) (i j : Nat) : Bool := lessID (pq.item i) (pq.item j)

/-- `pq.Swap (i, j)`: the simultaneous assignment `pq[i], pq[j] = pq[j], pq[i]`. -/
def Swap (pq : PriorityQueue) (i j : Nat) : PriorityQueue :=
  (pq.set i (pq.item j)).set j (pq.item i)

/-- `pq.Push (x)`: append the item. -/
def Push (pq : PriorityQueue) (x : ID) : PriorityQueue := pq ++ [x]

/-- `pq.Pop ()`: the slice without its last item, and that item. -/
def Pop (pq : PriorityQueue) : PriorityQueue × ID :=
  (pq.dropLast, pq.item (pq.length - 1))

end PriorityQueue

/-! ## `container/heap` of the Go standard library, run on a `PriorityQueue`

The loops of `up` and `down` are bounded by a counter that they cannot exhaust: the index
of `up` strictly decreases from `j`, the index of `down` strictly increases below `n`. -/

namespace heap

/-- The loop of `up`, run for at most the given number of rounds. The parent index
`(j - 1) / 2` of Go is 0 for `j = 0`, as the truncated subtraction gives here. -/
def upLoop : Nat → PriorityQueue → Nat → PriorityQueue
  | 0, h, _ => h
  | rounds + 1, h, j =>
    if (j - 1) / 2 = j ∨ ¬ h.Less j ((j - 1) / 2) then h
    else upLoop rounds (h.Swap ((j - 1) / 2) j) ((j - 1) / 2)

/-- `up (h, j)`. -/
def up (h : PriorityQueue) (j : Nat) : PriorityQueue := upLoop j h j

/-- The loop of `down`, run for at most the given number of rounds. The test `j1 < 0` of
the source guards against overflow of the `int` index and has no counterpart here. -/
def downLoop : Nat → PriorityQueue → Nat → Nat → PriorityQueue
  | 0, h, _, _ => h
  | rounds + 1, h, i, n =>
    if 2 * i + 1 ≥ n then h
    else if ¬ h.Less
        (if 2 * i + 1 + 1 < n ∧ h.Less (2 * i + 1 + 1) (2 * i + 1) then 2 * i + 1 + 1
          else 2 * i + 1) i then h
    else
      downLoop rounds
        (h.Swap i
          (if 2 * i + 1 + 1 < n ∧ h.Less (2 * i + 1 + 1) (2 * i + 1) then 2 * i + 1 + 1
            else 2 * i + 1))
        (if 2 * i + 1 + 1 < n ∧ h.Less (2 * i + 1 + 1) (2 * i + 1) then 2 * i + 1 + 1
          else 2 * i + 1) n

/-- `down (h, i0, n)`; the boolean result of the source is not used by `Init`, `Push`
and `Pop`. -/
def down (h : PriorityQueue) (i0 n : Nat) : PriorityQueue := downLoop n h i0 n

/-- The loop of `Init`: `down (h, i, n)` for `i = count - 1, ..., 0`. -/
def initLoop : Nat → PriorityQueue → Nat → PriorityQueue
  | 0, h, _ => h
  | i + 1, h, n => initLoop i (down h i n) n

/-- `heap.Init (h)`. -/
def Init (h : PriorityQueue) : PriorityQueue := initLoop (h.Len / 2) h h.Len

/-- `heap.Push (h, x)`. -/
def Push (h : PriorityQueue) (x : ID) : PriorityQueue :=
  up (h.Push x) ((h.Push x).Len - 1)

/-- `heap.Pop (h)`: the queue after the call, and the returned item. -/
def Pop (h : PriorityQueue) : PriorityQueue × ID :=
  (down (h.Swap 0 (h.Len - 1)) 0 (h.Len - 1)).Pop

end heap

/-- The queues of a factory: the empty queue, and every queue obtained from one of them by
a `heap.Push`, or by a `heap.Pop` when it is not empty (`Consume` pops under that test). -/
inductive Reachable : PriorityQueue → Prop
  | empty : Reachable []
  | push (q : PriorityQueue) (x : ID) : Reachable q → Reachable (heap.Push q x)
  | pop (q : PriorityQueue) : Reachable q → q ≠ [] → Reachable (heap.Pop q).1

/-- The heap order on the first `n` items: no item is before its parent. -/
def IsHeap (h : PriorityQueue) (n : Nat) : Prop :=
  ∀ k, 0 < k → k < n → lessID (h.item k) (h.item ((k - 1) / 2)) = false

/-! ## The factory of `id_factory.go` -/

/-- Configuration of the factory (`FactoryConfig`); `IDConfig` is a pointer in the source,
`none` is the nil pointer. -/
structure FactoryConfig where
  NumOfWorkers : Nat
  NumOfIDsPerWorker : Int
  WorkerIDs : List Nat
  IDConfig : Option IDConfig
  deriving DecidableEq

/-- The factory (`IDFactory`) without its mutex; `HasWork` is the counter of the wait
group. -/
structure IDFactory where
  idQueue : PriorityQueue
  factoryConfig : FactoryConfig
  HasWork : Nat
  deriving DecidableEq

/-- A producer (`Worker`). -/
structure Worker where
  generator : Generator
  workNum : Int
  deriving DecidableEq

/-- What can go wrong in the factory. -/
inductive FactoryError where
  /-- Message: "Please check if workerIDs matches NumOfWorkers". -/
  | workerIDsMismatch
  /-- An error returned by `NewIDGenerator`. -/
  | generator (e : GenError)
  /-- The run-time panic of reading a field through the nil `IDConfig` pointer. -/
  | nilIDConfig
  deriving DecidableEq

/-- `NewIDFactory (w)`. The length of a slice is a non-negative `int`, its conversion to
`uint64` is exact. -/
def NewIDFactory (w : FactoryConfig) : Except FactoryError IDFactory :=
  if w.NumOfWorkers ≠ w.WorkerIDs.length ∧ w.WorkerIDs.length > 0 then
    .error .workerIDsMismatch
  else
    .ok { idQueue := heap.Init [], factoryConfig := w, HasWork := 1 }

/-- The machine identity `hireWorkers` gives worker `i`. -/
def workerID (c : FactoryConfig) (i : Nat) : Nat :=
  if c.WorkerIDs.length > 0 ∧ c.WorkerIDs.length > i then c.WorkerIDs.getD i 0 else i

/-- The body of the loop of `hireWorkers` for worker `i`, with the result of its lookup of
the machine identity and its clock reading. -/
def hireWorker (m : IDFactory) (lookup : Except GenError Nat) (now : Int) (i : Nat) :
    Except FactoryError Worker :=
  match m.factoryConfig.IDConfig with
  | none => .error .nilIDConfig
  | some t =>
    match NewIDGenerator
        (some
          { TimeBit := t.TimeBit
            MachineBit := t.MachineBit
            MachineID := workerID m.factoryConfig i
            SequenceBit := t.SequenceBit
            GenerationRate := t.GenerationRate })
        lookup now with
    | .error e => .error (.generator e)
    | .ok g => .ok { generator := g, workNum := m.factoryConfig.NumOfIDsPerWorker }

/-- The loop of `hireWorkers` with `todo` workers left to hire, `i` the next index and
`workers` the slice built so far. The index is an `int` in the source, exact for every
number of workers a slice can hold. -/
def hireLoop (m : IDFactory) (lookup : Nat → Except GenError Nat) (now : Nat → Int) :
    Nat → Nat → List Worker → Except FactoryError (List Worker)
  | 0, _, workers => .ok workers
  | todo + 1, i, workers =>
    match hireWorker m (lookup i) (now i) i with
    | .error e => .error e
    | .ok w => hireLoop m lookup now todo (i + 1) (workers ++ [w])

/-- `m.hireWorkers ()`, with the lookup result and the clock reading of each worker. -/
def hireWorkers (m : IDFactory) (lookup : Nat → Except GenError Nat) (now : Nat → Int) :
    Except FactoryError (List Worker) :=
  hireLoop m lookup now m.factoryConfig.NumOfWorkers 0 []

/-- The identity of worker `i` fits the machine field of the template `t`: the width is 0
(the default width is then used with the identity as it is) or the identity is below
`2 ^ MachineBit`. -/
def IdentityFits (t : IDConfig) (c : FactoryConfig) (i : Nat) : Prop :=
  t.MachineBit = 0 ∨ workerID c i < 2 ^ t.MachineBit

/-- The state of the loop of `up` at index `j`: the heap order holds on the first `n` items
except between `j` and its parent, and the children of `j` are not before the parent
of `j`. -/
def HeapExceptUp (h : PriorityQueue) (n j : Nat) : Prop :=
  (∀ k, 0 < k → k < n → k ≠ j → lessID (h.item k) (h.item ((k - 1) / 2)) = false) ∧
  (∀ k, 0 < k → k < n → (k - 1) / 2 = j → 0 < j →
    lessID (h.item k) (h.item ((j - 1) / 2)) = false)

/-- The state of the loop of `down` at index `i`: the heap order holds on the first `n`
items except between `i` and its children, and the children of `i` are not before the
parent of `i`. -/
def HeapExceptDown (h : PriorityQueue) (n i : Nat) : Prop :=
  (∀ k, 0 < k → k < n → (k - 1) / 2 ≠ i →
    lessID (h.item k) (h.item ((k - 1) / 2)) = false) ∧
  (∀ k, 0 < k → k < n → (k - 1) / 2 = i → 0 < i →
    lessID (h.item k) (h.item ((i - 1) / 2)) = false)

/-- The items delivered by the given number of rounds of the loop of `Consume` when no
worker pushes in between: a round pops the queue when it is not empty, and does nothing
otherwise. -/
def consumeRounds : Nat → PriorityQueue → List ID
  | 0, _ => []
  | rounds + 1, q =>
    if q.Len > 0 then (heap.Pop q).2 :: consumeRounds rounds (heap.Pop q).1
    else consumeRounds rounds q

/-! ## A run of the factory: the workers of `Produce` and the loop of `Consume`

Every access to the queue is made under the mutex of the factory, so a run is a sequence
of two kinds of steps: a worker pushes the identifier it has generated, or `Consume` makes
one round of its loop. The order of the steps is the schedule of the goroutines. -/

/-- What a round of `doWork` does with the result of `GetNextID`: push the identifier and
go on, or break at an error. -/
def pushOrBreak : Except GenError ID → List ID → List ID
  | .error _, _ => []
  | .ok id, later => id :: later

/-- The loop of `doWork` with `todo` rounds left: the identifiers the worker pushes, in
order, for the clock readings of its calls of `GetNextID`. A list of readings shorter than
the quota is a worker that has not finished yet. -/
def doWorkLoop : Nat → Generator → List (Int × Int) → List ID
  | 0, _, _ => []
  | _ + 1, _, [] => []
  | todo + 1, g, r :: rest =>
    pushOrBreak (GetNextID g r.1 r.2).result
      (doWorkLoop todo (GetNextID g r.1 r.2).gen rest)

/-- `w.doWork (...)`: the identifiers the worker pushes, in order; the loop runs while
`int64 (i) < w.workNum`. -/
def doWork (w : Worker) (rs : List (Int × Int)) : List ID :=
  doWorkLoop w.workNum.toNat w.generator rs

/-- `totalWork` of `Consume`: the `uint64` product
`NumOfWorkers * uint64 (NumOfIDsPerWorker)`. -/
def totalWork (c : FactoryConfig) : Nat :=
  (c.NumOfWorkers * (c.NumOfIDsPerWorker % 2 ^ 64).toNat) % 2 ^ 64

/-- A step of a run under the mutex: a worker pushes an identifier, or `Consume` makes one
round of its loop. -/
inductive Event where
  | push (x : ID)
  | poll
  deriving DecidableEq

/-- The state of a run: the queue, the identifiers `Consume` has printed, in order, its
counter, and whether it has left its loop. -/
structure FactoryRun where
  queue : PriorityQueue
  delivered : List ID
  counter : Nat
  returned : Bool
  deriving DecidableEq

/-- The run before any step: the empty queue of `NewIDFactory`, nothing delivered. -/
def FactoryRun.start : FactoryRun := ⟨[], [], 0, false⟩

/-- One round of the loop of `Consume`: pop and print when the queue is not empty, then
leave the loop when the counter has reached `totalWork`. After the loop no round is
made. -/
def consumeRound (total : Nat) (s : FactoryRun) : FactoryRun :=
  if s.returned = true then s
  else if s.queue.Len > 0 then
    { queue := (heap.Pop s.queue).1
      delivered := s.delivered ++ [(heap.Pop s.queue).2]
      counter := add64 s.counter 1
      returned := decide (add64 s.counter 1 = total) }
  else { s with returned := decide (s.counter = total) }

/-- One step of a run. -/
def stepEvent (total : Nat) (s : FactoryRun) : Event → FactoryRun
  | .push x => { s with queue := heap.Push s.queue x }
  | .poll => consumeRound total s

/-- A run along a schedule. -/
def runEvents (total : Nat) (s : FactoryRun) : List Event → FactoryRun
  | [] => s
  | e :: rest => runEvents total (stepEvent total s e) rest

/-- The identifiers pushed along a schedule, in order. -/
def pushesOf : List Event → List ID
  | [] => []
  | .push x :: rest => x :: pushesOf rest
  | .poll :: rest => pushesOf rest

/-- What holds of a run before which the identifiers `pushed` were pushed: the delivered
identifiers and those in the queue are the pushed ones, the queue is one of the factory,
the counter counts the delivered identifiers as a `uint64`, and `Consume` has left its loop
only with the counter at `total`. -/
def RunInvariant (total : Nat) (pushed : List ID) (s : FactoryRun) : Prop :=
  (s.delivered ++ s.queue).Perm pushed ∧ Reachable s.queue ∧
  s.counter = s.delivered.length % 2 ^ 64 ∧ (s.returned = true → s.counter = total)

/-- The identifiers the workers of `Produce` push, in the order of the workers, when the
worker `i` reads the clock as `rss[i]` tells. -/
def producedBy (ws : List Worker) (rss : List (List (Int × Int))) : List ID :=
  (List.zipWith doWork ws rss).flatten

/-- A schedule of `n` rounds of `Consume` with no push in between. -/
def pollsOnly (n : Nat) : List Event := List.replicate n Event.poll

/-- A run of the factory `m` from its start along a schedule; `Consume` computes its
`totalWork` from the configuration of the factory. -/
def factoryRun (m : IDFactory) (ev : List Event) : FactoryRun :=
  runEvents (totalWork m.factoryConfig) FactoryRun.start ev

/-- The run `s` of the factory `m` followed by `n` rounds of `Consume` with no push in
between. -/
def thenPolls (m : IDFactory) (s : FactoryRun) (n : Nat) : FactoryRun :=
  runEvents (totalWork m.factoryConfig) s (pollsOnly n)

/-! ## Construction: `NewIDGenerator` -/

/-- The wrapped `uint16` sum in the guard is the plain sum whenever it is looked at. -/
theorem bitsRejected_iff (c : IDConfig) :
    bitsRejected c ↔
      (c.TimeBit ≥ 64 ∨ c.MachineBit ≥ 64 ∨ c.SequenceBit ≥ 64 ∨
        c.TimeBit + c.MachineBit + c.SequenceBit > 64) := by
  unfold bitsRejected add16
  omega

/-- A shift of `1` by less than 64 places is the power of two. -/
theorem shl64_one {n : Nat} (h : n < 64) : shl64 1 n = 2 ^ n := by
  unfold shl64
  rw [Nat.one_mul]
  exact Nat.mod_eq_of_lt (Nat.pow_lt_pow_right (by decide) h)

/-- A valid configuration passes the guard. -/
theorem ValidConfig.not_rejected {c : IDConfig} (h : ValidConfig c) : ¬ bitsRejected c := by
  rw [bitsRejected_iff]
  unfold ValidConfig at h
  omega

/-- The generator `NewIDGenerator` builds from a valid configuration. -/
theorem NewIDGenerator_valid (c : IDConfig) (ip : Nat) (now : Int) (h : ValidConfig c) :
    NewIDGenerator (some c) (.ok ip) now =
      .ok { seqenceNum := 0, machineID := c.MachineID, timeCounter := 0,
            timeBit := c.TimeBit, machineBit := c.MachineBit, sequenceBit := c.SequenceBit,
            rate := c.GenerationRate, lastTimeStamp := now } := by
  have hr := h.not_rejected
  obtain ⟨h1, h2, h3, -, h5, -, -, h8, h9⟩ := h
  have hm : ¬ (c.MachineBit > 0 ∧ c.MachineID ≥ shl64 1 c.MachineBit) := by
    rw [shl64_one h5]; omega
  simp only [NewIDGenerator, Option.getD_some, hr, if_false, machineFields, hm]
  rw [if_neg (by omega), if_neg (by omega), if_neg (by omega), if_neg (by omega)]

/-- What `NewIDGenerator` returns for an explicit configuration once the lookup has
succeeded: the guard decides, and an accepted configuration is repaired field by field. -/
theorem NewIDGenerator_some (c : IDConfig) (ip : Nat) (now : Int) :
    NewIDGenerator (some c) (.ok ip) now =
      if bitsRejected c then .error .invalidBits
      else .ok
        { seqenceNum := 0
          timeCounter := 0
          machineBit := (machineFields c (defaultConfig ip)).1
          machineID := (machineFields c (defaultConfig ip)).2
          rate := if c.GenerationRate ≤ 0 then TIMEUNIT else c.GenerationRate
          timeBit := if c.TimeBit = 0 then TIMEBIT else c.TimeBit
          sequenceBit := if c.SequenceBit = 0 then SEQUENCEBIT else c.SequenceBit
          lastTimeStamp := now } := by
  simp only [NewIDGenerator, Option.getD_some, defaultConfig]

/-- The fields of a generator built from an accepted explicit configuration. -/
theorem NewIDGenerator_ok_fields {c : IDConfig} {ip : Nat} {now : Int} {g : Generator}
    (h : NewIDGenerator (some c) (.ok ip) now = .ok g) :
    ¬ bitsRejected c ∧
    g.seqenceNum = 0 ∧ g.timeCounter = 0 ∧ g.lastTimeStamp = now ∧
    g.machineBit = (machineFields c (defaultConfig ip)).1 ∧
    g.machineID = (machineFields c (defaultConfig ip)).2 ∧
    g.rate = (if c.GenerationRate ≤ 0 then TIMEUNIT else c.GenerationRate) ∧
    g.timeBit = (if c.TimeBit = 0 then TIMEBIT else c.TimeBit) ∧
    g.sequenceBit = (if c.SequenceBit = 0 then SEQUENCEBIT else c.SequenceBit) := by
  rw [NewIDGenerator_some] at h
  by_cases hr : bitsRejected c
  · rw [if_pos hr] at h
    exact absurd h (by simp)
  · rw [if_neg hr] at h
    have hg := Except.ok.inj h
    subst hg
    exact ⟨hr, rfl, rfl, rfl, rfl, rfl, rfl, rfl, rfl⟩

/-- The nil configuration is replaced by the defaults, which pass the guard. -/
theorem NewIDGenerator_none (ip : Nat) (now : Int) :
    NewIDGenerator none (.ok ip) now =
      .ok { seqenceNum := 0, timeCounter := 0,
            machineBit := (machineFields (defaultConfig ip) (defaultConfig ip)).1,
            machineID := (machineFields (defaultConfig ip) (defaultConfig ip)).2,
            rate := TIMEUNIT, timeBit := TIMEBIT, sequenceBit := SEQUENCEBIT,
            lastTimeStamp := now } := by
  have hr : ¬ bitsRejected (defaultConfig ip) := by
    rw [bitsRejected_iff]
    simp [defaultConfig, TIMEBIT, MACHINEBIT, SEQUENCEBIT]
  simp only [NewIDGenerator, Option.getD_none, hr, if_false]
  simp [defaultConfig, TIMEUNIT, TIMEBIT, SEQUENCEBIT]

/-- The generator built from the nil configuration when the looked-up address is a
`uint16`: the defaults, with the address as machine identity. -/
theorem NewIDGenerator_none_fields (ip : Nat) (now : Int) (hip : ip < 2 ^ 16) :
    NewIDGenerator none (.ok ip) now = .ok ⟨0, ip, 0, 38, 16, 10, 1000000, now⟩ := by
  have h16 : shl64 1 16 = 2 ^ 16 := shl64_one (by decide)
  have hmf : machineFields (defaultConfig ip) (defaultConfig ip) = (16, ip) := by
    simp only [machineFields, defaultConfig, MACHINEBIT, h16]
    rw [if_neg (by decide), if_neg (by omega)]
  rw [NewIDGenerator_none, hmf]
  rfl

/-- C4: given that the machine-identity lookup succeeds, `NewIDGenerator` returns an error
(and no generator) exactly when the configuration has `TimeBit >= 64`, `MachineBit >= 64`,
`SequenceBit >= 64` or `TimeBit + MachineBit + SequenceBit > 64`; every other configuration,
the nil configuration included, yields a generator; 40/16/10 is rejected and 15/5/8 is
accepted. -/
theorem C4_construction_rejection (idConfig : Option IDConfig) (ip : Nat) (now : Int) :
    ((∃ e, NewIDGenerator idConfig (.ok ip) now = .error e) ↔
      ∃ c, idConfig = some c ∧
        (c.TimeBit ≥ 64 ∨ c.MachineBit ≥ 64 ∨ c.SequenceBit ≥ 64 ∨
          c.TimeBit + c.MachineBit + c.SequenceBit > 64)) ∧
    ((∃ g, NewIDGenerator idConfig (.ok ip) now = .ok g) ↔
      ¬ ∃ c, idConfig = some c ∧
        (c.TimeBit ≥ 64 ∨ c.MachineBit ≥ 64 ∨ c.SequenceBit ≥ 64 ∨
          c.TimeBit + c.MachineBit + c.SequenceBit > 64)) ∧
    (∃ g, NewIDGenerator none (.ok ip) now = .ok g) ∧
    (∀ (machineID : Nat) (rate : Int),
      NewIDGenerator (some ⟨40, 16, 10, machineID, rate⟩) (.ok ip) now =
        .error .invalidBits) ∧
    (∀ (machineID : Nat) (rate : Int),
      ∃ g, NewIDGenerator (some ⟨15, 5, 8, machineID, rate⟩) (.ok ip) now = .ok g) := by
  refine ⟨?_, ?_, ⟨_, NewIDGenerator_none ip now⟩, ?_, ?_⟩
  · cases idConfig with
    | none => simp [NewIDGenerator_none]
    | some c =>
      rw [NewIDGenerator_some]
      by_cases hr : bitsRejected c
      · rw [if_pos hr]
        exact ⟨fun _ => ⟨c, rfl, (bitsRejected_iff c).1 hr⟩, fun _ => ⟨_, rfl⟩⟩
      · rw [if_neg hr]
        constructor
        · rintro ⟨e, he⟩
          exact absurd he (by simp)
        · rintro ⟨c1, hc1, hbits⟩
          cases hc1
          exact absurd ((bitsRejected_iff c).2 hbits) hr
  · cases idConfig with
    | none => simp [NewIDGenerator_none]
    | some c =>
      rw [NewIDGenerator_some]
      by_cases hr : bitsRejected c
      · rw [if_pos hr]
        constructor
        · rintro ⟨g, hg⟩
          exact absurd hg (by simp)
        · intro hn
          exact absurd ⟨c, rfl, (bitsRejected_iff c).1 hr⟩ hn
      · rw [if_neg hr]
        refine ⟨fun _ => ?_, fun _ => ⟨_, rfl⟩⟩
        rintro ⟨c1, hc1, hbits⟩
        cases hc1
        exact absurd ((bitsRejected_iff c).2 hbits) hr
  · intro machineID rate
    rw [NewIDGenerator_some, if_pos]
    rw [bitsRejected_iff]
    simp
  · intro machineID rate
    rw [NewIDGenerator_some, if_neg]
    · exact ⟨_, rfl⟩
    · rw [bitsRejected_iff]
      simp

/-- C5 (evaluation of the code where the claim fails): the configuration 0/62/2 passes the
guard, which looks at the configured sum 64, and the zero time width is then replaced by 38:
the generator has widths 38/62/2 with sum 102. Its time field is shifted out of the word,
and the fifth identifier repeats the first (clock readings 0, 0, 0, 0 and, after the sleep
of the fourth call, one interval later). -/
theorem C5_default_width_breaks_layout :
    ∃ g, NewIDGenerator (some ⟨0, 62, 2, 1, 1000000⟩) (.ok 7) 0 = .ok g ∧
      g.timeBit = 38 ∧ g.machineBit = 62 ∧ g.sequenceBit = 2 ∧
      ¬ (g.timeBit + g.machineBit + g.sequenceBit ≤ 64) ∧
      (successes (runCalls g [(0, 0), (0, 0), (0, 0), (0, 1000000), (1000000, 1000000)])).map
        ID.IDNum = [5, 6, 7, 4, 5] :=
  ⟨⟨0, 1, 0, 38, 62, 2, 1000000, 0⟩, by decide, rfl, rfl, rfl, by decide, by decide⟩

/-- C6 (counterexample): with `MachineBit = 0` the caller-supplied `MachineID` is kept as it is
next to the default width 16, here 65536, which is not below `2 ^ 16`. -/
theorem C6_counterexample_raw_machineID :
    ∃ g, NewIDGenerator (some ⟨38, 0, 10, 65536, 1000000⟩) (.ok 7) 0 = .ok g ∧
      ¬ (g.machineID < 2 ^ g.machineBit) :=
  ⟨⟨0, 65536, 0, 38, 16, 10, 1000000, 0⟩, by decide, by decide⟩

/-- C6 (amended): for the nil configuration, and for every accepted configuration whose
`MachineID` fits the field it is given (below `2 ^ MachineBit` when `MachineBit > 0`, below
`2 ^ 16` when `MachineBit = 0` and the default width is used with the caller-supplied
`MachineID` as it is), the `machineID` of the generator is strictly below
`2 ^ machineBit`. -/
theorem C6_machine_identity_fits (idConfig : Option IDConfig) (ip : Nat) (now : Int)
    (g : Generator) (hip : ip < 2 ^ 16)
    (h : NewIDGenerator idConfig (.ok ip) now = .ok g)
    (hfit : ∀ c, idConfig = some c →
      (0 < c.MachineBit → c.MachineID < 2 ^ c.MachineBit) ∧
      (c.MachineBit = 0 → c.MachineID < 2 ^ 16)) :
    g.machineID < 2 ^ g.machineBit := by
  cases idConfig with
  | none =>
    rw [NewIDGenerator_none_fields ip now hip] at h
    have hg := Except.ok.inj h
    subst hg
    exact hip
  | some c =>
    obtain ⟨hr, -, -, -, hmb, hmid, -⟩ := NewIDGenerator_ok_fields h
    obtain ⟨hpos, hzero⟩ := hfit c rfl
    rw [hmb, hmid]
    rw [bitsRejected_iff] at hr
    by_cases h0 : c.MachineBit = 0
    · simp only [machineFields, if_pos h0, defaultConfig, MACHINEBIT]
      exact hzero h0
    · have hlt := hpos (Nat.pos_of_ne_zero h0)
      have hsh : shl64 1 c.MachineBit = 2 ^ c.MachineBit := shl64_one (by omega)
      simp only [machineFields, if_neg h0, hsh]
      rw [if_neg (by omega)]
      exact hlt

/-- C6 (witness): the amended statement at the configuration 38/6/16 with machine
identity 5. -/
theorem C6_machine_identity_fits_witness :
    (⟨0, 5, 0, 38, 6, 16, 1000000, 0⟩ : Generator).machineID <
      2 ^ (⟨0, 5, 0, 38, 6, 16, 1000000, 0⟩ : Generator).machineBit :=
  C6_machine_identity_fits (some ⟨38, 6, 16, 5, 1000000⟩) 7 0 _ (by decide) (by decide)
    (by
      intro c hc
      cases hc
      exact ⟨fun _ => by decide, fun h0 => absurd h0 (by decide)⟩)

/-- C7: for every accepted configuration a `TimeBit` of 0 yields `timeBit` 38, a
`SequenceBit` of 0 yields `sequenceBit` 10, a `MachineBit` of 0 yields `machineBit` 16 with
the caller-supplied `MachineID` unchanged; the configuration 0/0/0 with `MachineID` 1 is accepted
and yields widths 38/16/10 and `machineID` 1. -/
theorem C7_config_repair (c : IDConfig) (ip : Nat) (now : Int) (g : Generator)
    (h : NewIDGenerator (some c) (.ok ip) now = .ok g) :
    (c.TimeBit = 0 → g.timeBit = 38) ∧
    (c.SequenceBit = 0 → g.sequenceBit = 10) ∧
    (c.MachineBit = 0 → g.machineBit = 16 ∧ g.machineID = c.MachineID) ∧
    (∀ rate : Int, ∃ g0, NewIDGenerator (some ⟨0, 0, 0, 1, rate⟩) (.ok ip) now = .ok g0 ∧
      g0.timeBit = 38 ∧ g0.machineBit = 16 ∧ g0.sequenceBit = 10 ∧ g0.machineID = 1) := by
  obtain ⟨-, -, -, -, hmb, hmid, -, htb, hsb⟩ := NewIDGenerator_ok_fields h
  refine ⟨?_, ?_, ?_, ?_⟩
  · intro h0
    rw [htb, if_pos h0]
    rfl
  · intro h0
    rw [hsb, if_pos h0]
    rfl
  · intro h0
    rw [hmb, hmid]
    simp only [machineFields, if_pos h0, defaultConfig, MACHINEBIT, and_self]
  · intro rate
    rw [NewIDGenerator_some, if_neg (by rw [bitsRejected_iff]; simp)]
    exact ⟨_, rfl, rfl, rfl, rfl, rfl⟩

/-- C7 (witness): the repair at the configuration 0/0/0 with `MachineID` 1 of the test. -/
theorem C7_config_repair_witness :
    (⟨0, 1, 0, 38, 16, 10, 1000000000, 0⟩ : Generator).timeBit = 38 ∧
    (⟨0, 1, 0, 38, 16, 10, 1000000000, 0⟩ : Generator).sequenceBit = 10 ∧
    (⟨0, 1, 0, 38, 16, 10, 1000000000, 0⟩ : Generator).machineBit = 16 ∧
    (⟨0, 1, 0, 38, 16, 10, 1000000000, 0⟩ : Generator).machineID = 1 :=
  have h := C7_config_repair ⟨0, 0, 0, 1, 1000000000⟩ 7 0
    ⟨0, 1, 0, 38, 16, 10, 1000000000, 0⟩ (by decide)
  ⟨h.1 rfl, h.2.1 rfl, (h.2.2.1 rfl).1, (h.2.2.1 rfl).2⟩

/-- C8 (evaluation of the code where the claim fails): when the lookup of the machine
identity fails, `NewIDGenerator` returns the lookup error before it looks at the
configuration, also for the fully valid configuration 38/16/10 with `MachineID` 1 of the
test, which needs nothing from the lookup. -/
theorem C8_lookup_failure_rejects_valid_config :
    ValidConfig ⟨38, 16, 10, 1, 1000000000⟩ ∧
    NewIDGenerator (some ⟨38, 16, 10, 1, 1000000000⟩) (.error .lookupFailed) 0 =
      .error .lookupFailed ∧
    ¬ ∃ g, NewIDGenerator (some ⟨38, 16, 10, 1, 1000000000⟩) (.error .lookupFailed) 0 =
      .ok g := by
  refine ⟨by decide, rfl, ?_⟩
  rintro ⟨g, hg⟩
  cases hg

/-- Once the lookup of the machine identity has succeeded, a configuration with non-zero
widths, each below 64, summing to at most 64, with `MachineID < 2 ^ MachineBit` and
`GenerationRate > 0` is taken over unchanged: the generator has the configured `timeBit`,
`machineBit`, `sequenceBit` and `machineID`, its `rate` is `GenerationRate` in nanoseconds,
its sequence and time counters are 0. -/
theorem valid_config_unchanged_of_lookup (c : IDConfig) (ip : Nat) (now : Int)
    (h : ValidConfig c) :
    ∃ g, NewIDGenerator (some c) (.ok ip) now = .ok g ∧
      g.timeBit = c.TimeBit ∧ g.machineBit = c.MachineBit ∧
      g.sequenceBit = c.SequenceBit ∧ g.machineID = c.MachineID ∧
      g.rate = c.GenerationRate ∧ g.seqenceNum = 0 ∧ g.timeCounter = 0 :=
  ⟨_, NewIDGenerator_valid c ip now h, rfl, rfl, rfl, rfl, rfl, rfl, rfl⟩

/-- C9 (evaluation of the code where the claim fails): for the accepted configuration
38/6/16 with `MachineID` 64, which does not fit 6 bits, the generator gets the default
machine identity (the looked-up address, here 7), but its `machineBit` is 0 and not the
configured 6: the branch that replaces the identity does not assign `machineBit`. -/
theorem C9_overflow_branch_drops_machineBit :
    ∃ g, NewIDGenerator (some ⟨38, 6, 16, 64, 1000000⟩) (.ok 7) 0 = .ok g ∧
      g.machineID = 7 ∧ g.machineBit = 0 ∧ g.machineBit ≠ 6 ∧
      g.timeBit = 38 ∧ g.sequenceBit = 16 ∧ g.rate = 1000000 :=
  ⟨⟨0, 7, 0, 38, 0, 16, 1000000, 0⟩, by decide, rfl, rfl, by decide, rfl, rfl, rfl⟩

/-! ## Bit packing: `newID` -/

/-- Decrementing a power of two below `2 ^ 64` does not wrap. -/
theorem sub64_shl64_one {n : Nat} (h : n < 64) : sub64 (shl64 1 n) 1 = 2 ^ n - 1 := by
  rw [shl64_one h]
  have h1 : 0 < 2 ^ n := Nat.two_pow_pos _
  have h2 : 2 ^ n < 2 ^ 64 := Nat.pow_lt_pow_right (by decide) h
  unfold sub64
  omega

/-- Incrementing a counter below `2 ^ 64 - 1` does not wrap. -/
theorem add64_one {x : Nat} (h : x + 1 < 2 ^ 64) : add64 x 1 = x + 1 := by
  unfold add64
  exact Nat.mod_eq_of_lt h

/-- A shift by at most 64 places keeps the low `64 - n` bits of the word, moved up. -/
theorem shl64_eq (x : Nat) {n : Nat} (h : n ≤ 64) :
    shl64 x n = 2 ^ n * (x % 2 ^ (64 - n)) := by
  unfold shl64
  have h64 : (2 : Nat) ^ 64 = 2 ^ (64 - n) * 2 ^ n := by
    rw [← Nat.pow_add]
    congr 1
    omega
  rw [h64, Nat.mul_mod_mul_right, Nat.mul_comm]

/-- When the machine and sequence fields together take at most 64 bits and hold values
inside their widths, the word `newID` composes is the sum of its three fields; the time
field holds the time counter reduced to the bits left above the other two fields. -/
theorem newID_eq_of_bounds {g : Generator} (hsum : g.machineBit + g.sequenceBit ≤ 64)
    (hmid : g.machineID < 2 ^ g.machineBit) (hseq : g.seqenceNum < 2 ^ g.sequenceBit) :
    newID g =
      2 ^ g.sequenceBit *
          (2 ^ g.machineBit * (g.timeCounter % 2 ^ (64 - (g.machineBit + g.sequenceBit))) +
            g.machineID) +
        g.seqenceNum := by
  have h16 : add16 g.machineBit g.sequenceBit = g.machineBit + g.sequenceBit := by
    unfold add16
    omega
  have hM : shl64 g.machineID g.sequenceBit = 2 ^ g.sequenceBit * g.machineID := by
    rw [shl64_eq _ (by omega)]
    congr 1
    apply Nat.mod_eq_of_lt
    exact lt_of_lt_of_le hmid (Nat.pow_le_pow_right (by decide) (by omega))
  have hlt : 2 ^ g.sequenceBit * g.machineID < 2 ^ (g.machineBit + g.sequenceBit) := by
    rw [Nat.pow_add, Nat.mul_comm]
    exact Nat.mul_lt_mul_of_pos_right hmid (Nat.two_pow_pos _)
  unfold newID
  simp only [h16, hM]
  have hre : ∀ a : Nat, 2 ^ (g.machineBit + g.sequenceBit) * a + 2 ^ g.sequenceBit * g.machineID =
      2 ^ g.sequenceBit * (2 ^ g.machineBit * a + g.machineID) := by
    intro a
    rw [Nat.pow_add]
    ring
  rw [shl64_eq _ hsum, ← Nat.mul_add_lt_is_or hlt, hre, ← Nat.mul_add_lt_is_or hseq]

/-- With fields that fit, the word `newID` composes is the sum of its three fields; the time
field holds the time counter reduced to the bits left above the other two fields. -/
theorem newID_eq {g : Generator} (h : FieldsFit g) :
    newID g =
      2 ^ g.sequenceBit *
          (2 ^ g.machineBit * (g.timeCounter % 2 ^ (64 - (g.machineBit + g.sequenceBit))) +
            g.machineID) +
        g.seqenceNum :=
  newID_eq_of_bounds h.2.1 h.2.2.1 h.2.2.2

/-- The machine field of a composed identifier is the machine identity of its generator,
whatever the time counter is. -/
theorem newID_machine_field {g : Generator} (h : FieldsFit g) :
    newID g / 2 ^ g.sequenceBit % 2 ^ g.machineBit = g.machineID := by
  rw [newID_eq h]
  obtain ⟨-, -, hmid, hseq⟩ := h
  have hP : 0 < 2 ^ g.sequenceBit := Nat.two_pow_pos _
  rw [Nat.mul_add_div hP, Nat.div_eq_of_lt hseq, Nat.add_zero, Nat.mul_add_mod,
    Nat.mod_eq_of_lt hmid]

/-! ## One call of `GetNextID` -/

/-- The two cases of the first step. -/
theorem advanceInterval_cases (g : Generator) (e c : Int) :
    (e ≥ g.rate ∧ advanceInterval g e c =
        { g with timeCounter := add64 g.timeCounter 1, lastTimeStamp := c }) ∨
    (e < g.rate ∧ advanceInterval g e c = g) := by
  unfold advanceInterval
  by_cases h : e ≥ g.rate
  · exact Or.inl ⟨h, if_pos h⟩
  · exact Or.inr ⟨not_le.1 h, if_neg h⟩

/-- The first step changes the time counter and the recorded clock reading only. -/
theorem advanceInterval_fields (g : Generator) (e c : Int) :
    (advanceInterval g e c).seqenceNum = g.seqenceNum ∧
    (advanceInterval g e c).machineID = g.machineID ∧
    (advanceInterval g e c).timeBit = g.timeBit ∧
    (advanceInterval g e c).machineBit = g.machineBit ∧
    (advanceInterval g e c).sequenceBit = g.sequenceBit ∧
    (advanceInterval g e c).rate = g.rate := by
  rcases advanceInterval_cases g e c with ⟨-, h⟩ | ⟨-, h⟩ <;> rw [h] <;>
    exact ⟨rfl, rfl, rfl, rfl, rfl, rfl⟩

/-- The three cases of the last step. -/
theorem advanceSequence_cases (g : Generator) (e c : Int) :
    (g.seqenceNum ≥ sub64 (shl64 1 g.sequenceBit) 1 ∧ e < g.rate ∧
      advanceSequence g e c =
        ({ g with seqenceNum := 0, timeCounter := add64 g.timeCounter 1 },
          some (wrapInt64 (wrapInt64 (g.lastTimeStamp + g.rate) - c)))) ∨
    (g.seqenceNum ≥ sub64 (shl64 1 g.sequenceBit) 1 ∧ g.rate ≤ e ∧
      advanceSequence g e c = ({ g with seqenceNum := 0 }, none)) ∨
    (g.seqenceNum < sub64 (shl64 1 g.sequenceBit) 1 ∧
      advanceSequence g e c = ({ g with seqenceNum := add64 g.seqenceNum 1 }, none)) := by
  unfold advanceSequence
  by_cases h : g.seqenceNum ≥ sub64 (shl64 1 g.sequenceBit) 1
  · by_cases h2 : e < g.rate
    · exact Or.inl ⟨h, h2, by rw [if_pos h, if_pos h2]⟩
    · exact Or.inr (Or.inl ⟨h, not_lt.1 h2, by rw [if_pos h, if_neg h2]⟩)
  · exact Or.inr (Or.inr ⟨not_le.1 h, by rw [if_neg h]⟩)

/-- The three ways a call of `GetNextID` ends, with `e` the elapsed time it computes and
`g1` the generator after its first step. -/
theorem GetNextID_cases (g : Generator) (c s : Int) :
    ∃ e g1, e = wrapInt64 (c - g.lastTimeStamp) ∧ g1 = advanceInterval g e c ∧
      ((e < 0 ∧
          GetNextID g c s = { gen := g1, slept := none, result := .error .clockRegression }) ∨
        (0 ≤ e ∧ g1.timeCounter ≥ shl64 1 g1.timeBit ∧
          GetNextID g c s = { gen := g1, slept := none, result := .error .expired }) ∨
        (0 ≤ e ∧ g1.timeCounter < shl64 1 g1.timeBit ∧
          ∃ g2 sl, advanceSequence g1 e c = (g2, sl) ∧
            GetNextID g c s =
              { gen := g2, slept := sl,
                result := .ok { IDNum := newID g2, timestamp := s } })) := by
  refine ⟨_, _, rfl, rfl, ?_⟩
  by_cases h1 : wrapInt64 (c - g.lastTimeStamp) < 0
  · left
    refine ⟨h1, ?_⟩
    unfold GetNextID
    dsimp only
    rw [if_pos h1]
  · by_cases h2 : (advanceInterval g (wrapInt64 (c - g.lastTimeStamp)) c).timeCounter ≥
        shl64 1 (advanceInterval g (wrapInt64 (c - g.lastTimeStamp)) c).timeBit
    · right; left
      refine ⟨not_lt.1 h1, h2, ?_⟩
      unfold GetNextID
      dsimp only
      rw [if_neg h1, if_pos h2]
    · right; right
      refine ⟨not_lt.1 h1, not_le.1 h2, _, _, Prod.mk.eta.symm, ?_⟩
      unfold GetNextID
      dsimp only
      rw [if_neg h1, if_neg h2]

/-- A successful call returns the word composed from the state it leaves behind. -/
theorem GetNextID_ok_IDNum {g : Generator} {c s : Int} {i : ID}
    (h : (GetNextID g c s).result = .ok i) : i.IDNum = newID (GetNextID g c s).gen := by
  obtain ⟨e, g1, -, -, hc⟩ := GetNextID_cases g c s
  rcases hc with ⟨-, heq⟩ | ⟨-, -, heq⟩ | ⟨-, -, g2, sl, -, heq⟩ <;> rw [heq] at h ⊢
  · cases h
  · cases h
  · cases Except.ok.inj h
    rfl

/-- Every call keeps the layout of the generator, whatever it returns. -/
theorem GetNextID_FieldsFit {g : Generator} (c s : Int) (h : FieldsFit g) :
    FieldsFit (GetNextID g c s).gen ∧
    (GetNextID g c s).gen.sequenceBit = g.sequenceBit ∧
    (GetNextID g c s).gen.machineBit = g.machineBit ∧
    (GetNextID g c s).gen.machineID = g.machineID := by
  obtain ⟨hsb, hsum, hmid, hseq⟩ := h
  have hP : 2 ^ g.sequenceBit < 2 ^ 64 := Nat.pow_lt_pow_right (by decide) hsb
  have hP0 : 0 < 2 ^ g.sequenceBit := Nat.two_pow_pos _
  have hsub := sub64_shl64_one hsb
  obtain ⟨e, g1, -, hg1, hc⟩ := GetNextID_cases g c s
  obtain ⟨f1, f2, -, f4, f5, -⟩ := advanceInterval_fields g e c
  rw [← hg1] at f1 f2 f4 f5
  have hfit1 : FieldsFit g1 := by
    unfold FieldsFit
    rw [f1, f2, f4, f5]
    exact ⟨hsb, hsum, hmid, hseq⟩
  rcases hc with ⟨-, heq⟩ | ⟨-, -, heq⟩ | ⟨-, -, g2, sl, hadv, heq⟩ <;> rw [heq] <;>
    dsimp only
  · exact ⟨hfit1, f5, f4, f2⟩
  · exact ⟨hfit1, f5, f4, f2⟩
  · rcases advanceSequence_cases g1 e c with ⟨-, -, h3⟩ | ⟨-, -, h3⟩ | ⟨h1, h3⟩ <;>
      rw [h3] at hadv <;> cases hadv <;> unfold FieldsFit <;> dsimp only <;>
      rw [f2, f4, f5]
    · exact ⟨⟨hsb, hsum, hmid, hP0⟩, rfl, rfl, rfl⟩
    · exact ⟨⟨hsb, hsum, hmid, hP0⟩, rfl, rfl, rfl⟩
    · rw [f5, hsub] at h1
      rw [f1] at h1 ⊢
      rw [add64_one (by omega)]
      exact ⟨⟨hsb, hsum, hmid, by omega⟩, rfl, rfl, rfl⟩

/-- Every identifier a generator with fitting fields returns, at any time of its life,
carries the machine identity of the generator in its machine field. -/
theorem successes_machine_field (rs : List (Int × Int)) :
    ∀ g : Generator, FieldsFit g → ∀ i ∈ successes (runCalls g rs),
      i.IDNum / 2 ^ g.sequenceBit % 2 ^ g.machineBit = g.machineID := by
  induction rs with
  | nil =>
    intro g _ i hi
    simp [runCalls, successes] at hi
  | cons r rest ih =>
    intro g hg i hi
    obtain ⟨hfit, e1, e2, e3⟩ := GetNextID_FieldsFit r.1 r.2 hg
    have hrest := ih _ hfit
    rw [e1, e2, e3] at hrest
    rw [runCalls] at hi
    cases hres : (GetNextID g r.1 r.2).result with
    | error err =>
      rw [hres, successes] at hi
      exact hrest i hi
    | ok j =>
      rw [hres, successes] at hi
      rcases List.mem_cons.1 hi with hij | hi
      · subst hij
        rw [GetNextID_ok_IDNum hres, ← e1, ← e2, ← e3]
        exact newID_machine_field hfit
      · exact hrest i hi

/-- The generator built from a valid configuration has fields that fit the layout. -/
theorem FieldsFit_of_valid {cfg : IDConfig} {lookup : Except GenError Nat} {now : Int}
    {g : Generator} (hv : ValidConfig cfg)
    (h : NewIDGenerator (some cfg) lookup now = .ok g) :
    FieldsFit g ∧ g.timeBit = cfg.TimeBit ∧ g.machineBit = cfg.MachineBit ∧
      g.sequenceBit = cfg.SequenceBit ∧ g.machineID = cfg.MachineID ∧
      g.rate = cfg.GenerationRate ∧ g.seqenceNum = 0 ∧ g.timeCounter = 0 := by
  cases lookup with
  | error err =>
    exact absurd h (by simp [NewIDGenerator])
  | ok ip =>
    rw [NewIDGenerator_valid cfg ip now hv] at h
    cases Except.ok.inj h
    obtain ⟨-, -, -, -, -, h6, h7, h8, -⟩ := hv
    exact ⟨⟨h6, by dsimp only; omega, h8, Nat.two_pow_pos _⟩,
      rfl, rfl, rfl, rfl, rfl, rfl, rfl⟩

/-- C3: two generators built from valid configurations with the same three widths and
different machine identities never return the same identifier: for any two sequences of
clock readings, no `IDNum` of a successful call on the first equals an `IDNum` of a
successful call on the second. -/
theorem C3_cross_generator_disjoint (cfg1 cfg2 : IDConfig)
    (lookup1 lookup2 : Except GenError Nat) (now1 now2 : Int) (g1 g2 : Generator)
    (rs1 rs2 : List (Int × Int))
    (hv1 : ValidConfig cfg1) (hv2 : ValidConfig cfg2)
    (_htb : cfg1.TimeBit = cfg2.TimeBit) (hmb : cfg1.MachineBit = cfg2.MachineBit)
    (hsb : cfg1.SequenceBit = cfg2.SequenceBit) (hmid : cfg1.MachineID ≠ cfg2.MachineID)
    (h1 : NewIDGenerator (some cfg1) lookup1 now1 = .ok g1)
    (h2 : NewIDGenerator (some cfg2) lookup2 now2 = .ok g2) :
    ∀ a ∈ successes (runCalls g1 rs1), ∀ b ∈ successes (runCalls g2 rs2),
      a.IDNum ≠ b.IDNum := by
  obtain ⟨hf1, -, m1, s1, i1, -⟩ := FieldsFit_of_valid hv1 h1
  obtain ⟨hf2, -, m2, s2, i2, -⟩ := FieldsFit_of_valid hv2 h2
  intro a ha b hb hab
  have ea := successes_machine_field rs1 g1 hf1 a ha
  have eb := successes_machine_field rs2 g2 hf2 b hb
  rw [hab, s1, m1, i1, hsb, hmb] at ea
  rw [s2, m2, i2] at eb
  exact hmid (ea.symm.trans eb)

/-! ## Clock regression -/

/-- An integer inside the `int64` range is not changed by the wrap-around. -/
theorem wrapInt64_of_range {x : Int} (h1 : -2 ^ 63 ≤ x) (h2 : x < 2 ^ 63) :
    wrapInt64 x = x := by
  unfold wrapInt64
  norm_num at h1 h2 ⊢
  omega

/-- With a positive interval, a call that computes a negative elapsed time returns the
clock error and leaves the generator as it was. -/
theorem GetNextID_of_elapsed_neg (g : Generator) (c s : Int) (hrate : 0 < g.rate)
    (he : wrapInt64 (c - g.lastTimeStamp) < 0) :
    GetNextID g c s = { gen := g, slept := none, result := .error .clockRegression } := by
  obtain ⟨e, g1, he1, hg1, hc⟩ := GetNextID_cases g c s
  rw [← he1] at he
  rcases hc with ⟨-, heq⟩ | ⟨h0, -, -⟩ | ⟨h0, -, -⟩
  · rcases advanceInterval_cases g e c with ⟨hge, -⟩ | ⟨-, hsame⟩
    · omega
    · rw [heq, hg1, hsame]
  · omega
  · omega

/-- A call that computes a non-negative elapsed time does not return the clock error. -/
theorem GetNextID_of_elapsed_nonneg (g : Generator) (c s : Int)
    (he : 0 ≤ wrapInt64 (c - g.lastTimeStamp)) :
    (GetNextID g c s).result ≠ .error .clockRegression := by
  obtain ⟨e, g1, he1, -, hc⟩ := GetNextID_cases g c s
  rw [← he1] at he
  rcases hc with ⟨h0, -⟩ | ⟨-, -, heq⟩ | ⟨-, -, g2, sl, -, heq⟩
  · omega
  · rw [heq]
    exact fun h => GenError.noConfusion (Except.error.inj h)
  · rw [heq]
    exact fun h => Except.noConfusion h

/-- C10 (counterexample): the elapsed time is an `int64` difference that wraps around. A
generator of the configuration 38/16/10 with `lastTimeStamp = 2 ^ 62`, called at the strictly
earlier clock reading `-(2 ^ 62) - 1`, computes the elapsed time `2 ^ 63 - 1`: the call
returns an identifier, and time counter, sequence counter and `lastTimeStamp` have changed.
The same generator with `lastTimeStamp = -(2 ^ 62) - 1`, called at the later reading
`2 ^ 62`, returns the clock error. -/
theorem C10_counterexample_int64_wrap :
    (-(2 ^ 62) - 1 < (⟨0, 1, 0, 38, 16, 10, 1000000, 2 ^ 62⟩ : Generator).lastTimeStamp ∧
      0 < (⟨0, 1, 0, 38, 16, 10, 1000000, 2 ^ 62⟩ : Generator).rate ∧
      GetNextID ⟨0, 1, 0, 38, 16, 10, 1000000, 2 ^ 62⟩ (-(2 ^ 62) - 1) 0 =
        { gen := ⟨1, 1, 1, 38, 16, 10, 1000000, -(2 ^ 62) - 1⟩, slept := none,
          result := .ok ⟨67109889, 0⟩ }) ∧
    ((⟨0, 1, 0, 38, 16, 10, 1000000, -(2 ^ 62) - 1⟩ : Generator).lastTimeStamp ≤ 2 ^ 62 ∧
      (GetNextID ⟨0, 1, 0, 38, 16, 10, 1000000, -(2 ^ 62) - 1⟩ (2 ^ 62) 0).result =
        .error .clockRegression) := by
  decide

/-- C10 (amended): for every generator with a positive interval and every clock reading
that is earlier than `lastTimeStamp` by at most `2 ^ 63` nanoseconds (the `int64` difference
`now - lastTimeStamp` does not wrap), `GetNextID` returns the clock error and no identifier,
does not sleep, and leaves every field of the generator as it was; a reading that is not
earlier than `lastTimeStamp` and less than `2 ^ 63` nanoseconds later never produces the
clock error. -/
theorem C10_clock_regression_atomic (g : Generator) (c s : Int) (hrate : 0 < g.rate) :
    (c < g.lastTimeStamp → g.lastTimeStamp - c ≤ 2 ^ 63 →
      GetNextID g c s = { gen := g, slept := none, result := .error .clockRegression }) ∧
    (g.lastTimeStamp ≤ c → c - g.lastTimeStamp < 2 ^ 63 →
      (GetNextID g c s).result ≠ .error .clockRegression) := by
  constructor
  · intro hlt hr
    apply GetNextID_of_elapsed_neg g c s hrate
    rw [wrapInt64_of_range (by omega) (by norm_num; omega)]
    omega
  · intro hle hr
    apply GetNextID_of_elapsed_nonneg
    rw [wrapInt64_of_range (by omega) hr]
    omega

/-- C10 (witness): a generator with `lastTimeStamp = 2000` called at the reading 1500
returns the clock error and is unchanged; called at the reading 2500 it does not return the
clock error. -/
theorem C10_clock_regression_atomic_witness :
    GetNextID ⟨3, 1, 5, 38, 16, 10, 1000000, 2000⟩ 1500 1600 =
      { gen := ⟨3, 1, 5, 38, 16, 10, 1000000, 2000⟩, slept := none,
        result := .error .clockRegression } ∧
    (GetNextID ⟨3, 1, 5, 38, 16, 10, 1000000, 2000⟩ 2500 2600).result ≠
      .error .clockRegression :=
  ⟨(C10_clock_regression_atomic ⟨3, 1, 5, 38, 16, 10, 1000000, 2000⟩ 1500 1600
      (by decide)).1 (by decide) (by decide),
    (C10_clock_regression_atomic ⟨3, 1, 5, 38, 16, 10, 1000000, 2000⟩ 2500 2600
      (by decide)).2 (by decide) (by decide)⟩

/-! ## The life of one generator -/

/-- One call on a live generator: it returns an identifier and leaves a live generator that
is later in the order of states, or it returns the clock error and leaves the generator
as it was, or it returns the expiry error. -/
theorem GetNextID_live {cfg : IDConfig} {g : Generator} (c s : Int) (hL : Live cfg g) :
    (∃ i, (GetNextID g c s).result = .ok i ∧ Live cfg (GetNextID g c s).gen ∧
        Before g (GetNextID g c s).gen) ∨
    ((GetNextID g c s).result = .error .clockRegression ∧ (GetNextID g c s).gen = g) ∨
    (GetNextID g c s).result = .error .expired := by
  obtain ⟨hv, htb, hmb, hsb, hmid, hrate, hseq, htc⟩ := hL
  have hv2 := hv
  obtain ⟨-, -, -, v4, -, v6, -, -, v9⟩ := hv2
  have hT : 2 ^ g.timeBit ≤ 2 ^ 63 := Nat.pow_le_pow_right (by decide) (by omega)
  have hP : 2 ^ g.sequenceBit ≤ 2 ^ 63 := Nat.pow_le_pow_right (by decide) (by omega)
  have hP0 : 0 < 2 ^ g.sequenceBit := Nat.two_pow_pos _
  have hsub := sub64_shl64_one (n := g.sequenceBit) (by omega)
  have hshl := shl64_one (n := g.timeBit) (by omega)
  have hadd1 : add64 g.timeCounter 1 = g.timeCounter + 1 := add64_one (by omega)
  have hadd2 : add64 g.seqenceNum 1 = g.seqenceNum + 1 := add64_one (by omega)
  obtain ⟨e, g1, he, hg1, hc⟩ := GetNextID_cases g c s
  rcases hc with ⟨hneg, -⟩ | ⟨-, -, heq⟩ | ⟨hpos, hlt, g2, sl, hadv, heq⟩
  · right; left
    rw [GetNextID_of_elapsed_neg g c s (by omega) (by rw [← he]; exact hneg)]
    exact ⟨rfl, rfl⟩
  · right; right
    rw [heq]
  · left
    rw [heq]
    dsimp only
    refine ⟨_, rfl, ?_⟩
    clear heq he
    rcases advanceInterval_cases g e c with ⟨hge, h1⟩ | ⟨hlt1, h1⟩ <;>
      rw [← hg1] at h1 <;> clear hg1 <;> subst h1 <;>
      rcases advanceSequence_cases _ e c with ⟨a1, a2, a3⟩ | ⟨a1, a2, a3⟩ | ⟨a1, a3⟩ <;>
      rw [a3] at hadv <;> cases hadv <;> clear a3 <;> unfold Live Before <;>
      (try dsimp only at hlt) <;> (try dsimp only at a1) <;> (try dsimp only at a2) <;>
      dsimp only <;>
      (try simp only [hadd1, hadd2, hsub, hshl] at hlt) <;>
      (try simp only [hadd1, hadd2, hsub, hshl] at a1) <;>
      (try simp only [hadd1, hadd2, hsub, hshl])
    all_goals refine ⟨⟨hv, htb, hmb, hsb, hmid, hrate, ?_, ?_⟩, ?_⟩
    all_goals try simp only [and_true, true_and]
    all_goals omega

/-- A live generator has fields that fit the layout. -/
theorem Live.fieldsFit {cfg : IDConfig} {g : Generator} (h : Live cfg g) : FieldsFit g := by
  obtain ⟨⟨-, -, -, -, -, v6, v7, v8, -⟩, -, hmb, hsb, hmid, -, hseq, -⟩ := h
  refine ⟨by omega, by omega, ?_, hseq⟩
  rw [hmid, hmb]
  exact v8

/-- Two live generators of one configuration, the first before the second in the order of
states and not in the state (0, 0), compose different words. This holds also when the
second has reached the time counter `2 ^ timeBit`, whose time field wraps to 0 when the
three widths fill the whole word. -/
theorem newID_ne_of_Before {cfg : IDConfig} {a b : Generator} (ha : Live cfg a)
    (hb : Live cfg b) (hab : Before a b)
    (h0 : a.timeCounter ≠ 0 ∨ a.seqenceNum ≠ 0) : newID a ≠ newID b := by
  intro heq
  rw [newID_eq ha.fieldsFit, newID_eq hb.fieldsFit] at heq
  obtain ⟨hv, atb, amb, asb, amid, -, aseq, atc⟩ := ha
  obtain ⟨-, btb, bmb, bsb, bmid, -, bseq, btc⟩ := hb
  rw [atb] at atc
  rw [btb] at btc
  rw [asb] at aseq
  rw [bsb] at bseq
  rw [asb, amb, amid, bsb, bmb, bmid] at heq
  obtain ⟨-, -, -, v4, v5, v6, v7, -, -⟩ := hv
  have hP0 : 0 < 2 ^ cfg.SequenceBit := Nat.two_pow_pos _
  have hM0 : 0 < 2 ^ cfg.MachineBit := Nat.two_pow_pos _
  have hs : a.seqenceNum = b.seqenceNum := by
    have h := congrArg (fun x => x % 2 ^ cfg.SequenceBit) heq
    simp only [Nat.mul_add_mod, Nat.mod_eq_of_lt aseq, Nat.mod_eq_of_lt bseq] at h
    exact h
  have hA : a.timeCounter % 2 ^ (64 - (cfg.MachineBit + cfg.SequenceBit)) =
      b.timeCounter % 2 ^ (64 - (cfg.MachineBit + cfg.SequenceBit)) := by
    have h := congrArg (fun x => x / 2 ^ cfg.SequenceBit) heq
    simp only [Nat.mul_add_div hP0, Nat.div_eq_of_lt aseq, Nat.div_eq_of_lt bseq,
      Nat.add_zero] at h
    exact Nat.eq_of_mul_eq_mul_left hM0 (Nat.add_right_cancel h)
  unfold Before at hab
  by_cases h64 : cfg.TimeBit + cfg.MachineBit + cfg.SequenceBit = 64
  · have hK : 64 - (cfg.MachineBit + cfg.SequenceBit) = cfg.TimeBit := by omega
    rw [hK] at hA
    rcases atc with h | ⟨h, -⟩ <;> rcases btc with k | ⟨k, k2⟩
    · rw [Nat.mod_eq_of_lt h, Nat.mod_eq_of_lt k] at hA
      omega
    · rw [Nat.mod_eq_of_lt h, k, Nat.mod_self] at hA
      omega
    · omega
    · omega
  · have hTK : 2 ^ cfg.TimeBit < 2 ^ (64 - (cfg.MachineBit + cfg.SequenceBit)) :=
      Nat.pow_lt_pow_right (by decide) (by omega)
    rw [Nat.mod_eq_of_lt (by omega), Nat.mod_eq_of_lt (by omega)] at hA
    omega

/-- Two live generators of one configuration, the first before the second in the order of
states: the word of the first is below the word of the second as long as the time counter
of the second is below `2 ^ timeBit`, or the three widths leave a bit of the word free. -/
theorem newID_lt_of_Before {cfg : IDConfig} {a b : Generator} (ha : Live cfg a)
    (hb : Live cfg b) (hab : Before a b)
    (hroom : b.timeCounter < 2 ^ cfg.TimeBit ∨
      cfg.TimeBit + cfg.MachineBit + cfg.SequenceBit < 64) : newID a < newID b := by
  rw [newID_eq ha.fieldsFit, newID_eq hb.fieldsFit]
  obtain ⟨hv, atb, amb, asb, amid, -, aseq, atc⟩ := ha
  obtain ⟨-, btb, bmb, bsb, bmid, -, bseq, btc⟩ := hb
  rw [atb] at atc
  rw [btb] at btc
  rw [asb] at aseq
  rw [bsb] at bseq
  rw [asb, amb, amid, bsb, bmb, bmid]
  obtain ⟨-, -, -, v4, v5, v6, v7, v8, -⟩ := hv
  unfold Before at hab
  have hle : 2 ^ cfg.TimeBit ≤ 2 ^ (64 - (cfg.MachineBit + cfg.SequenceBit)) :=
    Nat.pow_le_pow_right (by decide) (by omega)
  have hb1 : b.timeCounter < 2 ^ (64 - (cfg.MachineBit + cfg.SequenceBit)) := by
    rcases hroom with h | h
    · omega
    · have hlt : 2 ^ cfg.TimeBit < 2 ^ (64 - (cfg.MachineBit + cfg.SequenceBit)) :=
        Nat.pow_lt_pow_right (by decide) (by omega)
      omega
  have ha1 : a.timeCounter < 2 ^ (64 - (cfg.MachineBit + cfg.SequenceBit)) := by omega
  rw [Nat.mod_eq_of_lt ha1, Nat.mod_eq_of_lt hb1]
  rcases hab with hlt | ⟨heq, hlt⟩
  · have h1 : 2 ^ cfg.MachineBit * (a.timeCounter + 1) ≤ 2 ^ cfg.MachineBit * b.timeCounter :=
      Nat.mul_le_mul_left _ hlt
    have h2 : 2 ^ cfg.MachineBit * a.timeCounter + cfg.MachineID + 1 ≤
        2 ^ cfg.MachineBit * b.timeCounter + cfg.MachineID := by
      rw [Nat.mul_add, Nat.mul_one] at h1
      omega
    have h3 := Nat.mul_le_mul_left (2 ^ cfg.SequenceBit) h2
    rw [Nat.mul_add _ _ 1, Nat.mul_one] at h3
    omega
  · rw [heq]
    omega

/-- The identifiers of the valid lifetime of a live generator: each is composed from a
live state later than the starting state, and any relation that holds between the words of
two live states in their order, the first not being the state (0, 0), holds between every
earlier and every later identifier. -/
theorem validLifetime_pairwise (cfg : IDConfig) (R : Nat → Nat → Prop)
    (hR : ∀ a b : Generator, Live cfg a → Live cfg b → Before a b →
      (a.timeCounter ≠ 0 ∨ a.seqenceNum ≠ 0) → R (newID a) (newID b))
    (rs : List (Int × Int)) :
    ∀ g : Generator, Live cfg g →
      (∀ i ∈ validLifetime (runCalls g rs),
        ∃ g1, Live cfg g1 ∧ Before g g1 ∧ i.IDNum = newID g1) ∧
      (validLifetime (runCalls g rs)).Pairwise (fun a b => R a.IDNum b.IDNum) := by
  induction rs with
  | nil =>
    intro g _
    simp [runCalls, validLifetime]
  | cons r rest ih =>
    intro g hL
    rw [runCalls]
    rcases GetNextID_live r.1 r.2 hL with ⟨i, hres, hL1, hB⟩ | ⟨hres, hgen⟩ | hres
    · obtain ⟨ih1, ih2⟩ := ih _ hL1
      rw [hres, validLifetime]
      have hB0 := hB
      unfold Before at hB0
      constructor
      · intro j hj
        rcases List.mem_cons.1 hj with hji | hj
        · subst hji
          exact ⟨_, hL1, hB, GetNextID_ok_IDNum hres⟩
        · obtain ⟨g2, hL2, hB2, hid⟩ := ih1 j hj
          refine ⟨g2, hL2, ?_, hid⟩
          unfold Before at hB2 ⊢
          omega
      · refine List.pairwise_cons.2 ⟨?_, ih2⟩
        intro j hj
        obtain ⟨g2, hL2, hB2, hid⟩ := ih1 j hj
        rw [GetNextID_ok_IDNum hres, hid]
        exact hR _ _ hL1 hL2 hB2 (by omega)
    · rw [hres, hgen, validLifetime]
      · exact ih g hL
      · intro h
        cases h
    · rw [hres, validLifetime]
      simp

/-- No two identifiers of the valid lifetime of a live generator are equal. -/
theorem validLifetime_distinct (cfg : IDConfig) (rs : List (Int × Int)) (g : Generator)
    (hL : Live cfg g) :
    (validLifetime (runCalls g rs)).Pairwise (fun a b => a.IDNum ≠ b.IDNum) :=
  (validLifetime_pairwise cfg (fun x y => x ≠ y)
    (fun _ _ ha hb hab h0 => newID_ne_of_Before ha hb hab h0) rs g hL).2

/-- When the three widths leave a bit of the word free, the identifiers of the valid
lifetime of a live generator are strictly increasing. -/
theorem validLifetime_increasing (cfg : IDConfig) (rs : List (Int × Int)) (g : Generator)
    (hL : Live cfg g) (hroom : cfg.TimeBit + cfg.MachineBit + cfg.SequenceBit < 64) :
    (validLifetime (runCalls g rs)).Pairwise (fun a b => a.IDNum < b.IDNum) :=
  (validLifetime_pairwise cfg (fun x y => x < y)
    (fun _ _ ha hb hab _ => newID_lt_of_Before ha hb hab (Or.inr hroom)) rs g hL).2

/-- The generator built from a valid configuration is live. -/
theorem Live_of_valid {cfg : IDConfig} {lookup : Except GenError Nat} {now : Int}
    {g : Generator} (hv : ValidConfig cfg)
    (h : NewIDGenerator (some cfg) lookup now = .ok g) : Live cfg g := by
  obtain ⟨-, h1, h2, h3, h4, h5, h6, h7⟩ := FieldsFit_of_valid hv h
  refine ⟨hv, h1, h2, h3, h4, h5, ?_, Or.inl ?_⟩
  · rw [h6]
    exact Nat.two_pow_pos _
  · rw [h7]
    exact Nat.two_pow_pos _

/-- C1: for every generator built by `NewIDGenerator` from a configuration with non-zero
widths, each below 64, summing to at most 64, with `MachineID < 2 ^ MachineBit` and a
positive interval, and for every sequence of clock readings fed to successive `GetNextID`
calls, the `IDNum` values of the successful calls made up to the first expiry error are
pairwise distinct. -/
theorem C1_unique_within_generator (cfg : IDConfig) (lookup : Except GenError Nat)
    (now : Int) (g : Generator) (rs : List (Int × Int)) (hv : ValidConfig cfg)
    (h : NewIDGenerator (some cfg) lookup now = .ok g) :
    ((validLifetime (runCalls g rs)).map ID.IDNum).Nodup := by
  unfold List.Nodup
  rw [List.pairwise_map]
  exact validLifetime_distinct cfg rs g (Live_of_valid hv h)

/-- C1 (witness): the generator of the valid configuration 2/61/1 with machine identity 1
and interval 10, called at the clock readings 10, 10, 20, 20, 30. -/
theorem C1_unique_within_generator_witness :
    ValidConfig ⟨2, 61, 1, 1, 10⟩ ∧
    NewIDGenerator (some ⟨2, 61, 1, 1, 10⟩) (.ok 7) 0 = .ok ⟨0, 1, 0, 2, 61, 1, 10, 0⟩ ∧
    ((validLifetime (runCalls ⟨0, 1, 0, 2, 61, 1, 10, 0⟩
      [(10, 10), (10, 20), (20, 20), (20, 30), (30, 30)])).map ID.IDNum).Nodup :=
  ⟨by decide, by decide,
    C1_unique_within_generator ⟨2, 61, 1, 1, 10⟩ (.ok 7) 0 ⟨0, 1, 0, 2, 61, 1, 10, 0⟩
      [(10, 10), (10, 20), (20, 20), (20, 30), (30, 30)] (by decide) (by decide)⟩

/-- C2 (evaluation of the code where the claim fails): the generator of the valid
configuration 2/61/1 (sum 64) with machine identity 1 and interval 10, built at clock
reading 0 and called at the readings 10, 10, 20, 20 (the second and fourth call roll the
sequence counter over and sleep until the next interval). All four calls succeed and come
before the expiry error of the fifth call, the fourth increments the time counter to
`2 ^ timeBit = 4` after the expiry check, the time field is shifted out of the word, and
the fourth identifier, 2, is smaller than the third. -/
theorem C2_order_breaks_at_last_identifier :
    ValidConfig ⟨2, 61, 1, 1, 10⟩ ∧
    NewIDGenerator (some ⟨2, 61, 1, 1, 10⟩) (.ok 7) 0 = .ok ⟨0, 1, 0, 2, 61, 1, 10, 0⟩ ∧
    runCalls ⟨0, 1, 0, 2, 61, 1, 10, 0⟩
        [(10, 10), (10, 20), (20, 20), (20, 30), (30, 30)] =
      [.ok ⟨4611686018427387907, 10⟩, .ok ⟨9223372036854775810, 20⟩,
        .ok ⟨13835058055282163715, 20⟩, .ok ⟨2, 30⟩, .error .expired] ∧
    (GetNextID ⟨1, 1, 3, 2, 61, 1, 10, 20⟩ 20 30).gen.timeCounter = 2 ^ 2 ∧
    ¬ ((13835058055282163715 : Nat) < 2) := by
  decide

/-- C3 (witness): two generators of the layout 38/6/16 with machine identities 0 and 1,
as in the test of distributed generators; the first identifier of the one, 1, differs from
the first identifier of the other, 65537. -/
theorem C3_cross_generator_disjoint_witness :
    ValidConfig ⟨38, 6, 16, 0, 1000000⟩ ∧ ValidConfig ⟨38, 6, 16, 1, 1000000⟩ ∧
    (⟨1, 6⟩ : ID) ∈
      successes (runCalls ⟨0, 0, 0, 38, 6, 16, 1000000, 0⟩ [(5, 6), (7, 8)]) ∧
    (⟨65537, 6⟩ : ID) ∈
      successes (runCalls ⟨0, 1, 0, 38, 6, 16, 1000000, 0⟩ [(5, 6), (7, 8)]) ∧
    (⟨1, 6⟩ : ID).IDNum ≠ (⟨65537, 6⟩ : ID).IDNum :=
  ⟨by decide, by decide, by decide, by decide,
    C3_cross_generator_disjoint ⟨38, 6, 16, 0, 1000000⟩ ⟨38, 6, 16, 1, 1000000⟩
      (.ok 7) (.ok 7) 0 0 ⟨0, 0, 0, 38, 6, 16, 1000000, 0⟩ ⟨0, 1, 0, 38, 6, 16, 1000000, 0⟩
      [(5, 6), (7, 8)] [(5, 6), (7, 8)]
      (by decide) (by decide) rfl rfl rfl (by decide) (by decide) (by decide)
      ⟨1, 6⟩ (by decide) ⟨65537, 6⟩ (by decide)⟩

/-! ## Expiry -/

/-- A call that returns the expiry error leaves an expired generator. -/
theorem GetNextID_expired_gen {g : Generator} {c s : Int}
    (h : (GetNextID g c s).result = .error .expired) : Expired (GetNextID g c s).gen := by
  obtain ⟨e, g1, -, -, hc⟩ := GetNextID_cases g c s
  rcases hc with ⟨-, heq⟩ | ⟨-, hge, heq⟩ | ⟨-, -, g2, sl, -, heq⟩ <;> rw [heq] at h ⊢
  · exact absurd (Except.error.inj h) (by decide)
  · exact hge
  · cases h

/-- One call on an expired generator whose time counter does not wrap in that call: the
call returns an error and leaves an expired generator. -/
theorem GetNextID_of_Expired {g : Generator} (c s : Int) (hx : Expired g)
    (hnw : g.timeCounter ≤ (GetNextID g c s).gen.timeCounter) :
    (∃ err, (GetNextID g c s).result = .error err) ∧ Expired (GetNextID g c s).gen := by
  unfold Expired at hx ⊢
  obtain ⟨e, g1, -, hg1, hc⟩ := GetNextID_cases g c s
  obtain ⟨-, -, f3, -, -, f6⟩ := advanceInterval_fields g e c
  rw [← hg1] at f3 f6
  rcases hc with ⟨-, heq⟩ | ⟨-, hge, heq⟩ | ⟨-, hlt, g2, sl, hadv, heq⟩ <;>
    rw [heq] at hnw ⊢ <;> dsimp only at hnw ⊢
  · refine ⟨⟨_, rfl⟩, ?_⟩
    rw [f3]
    omega
  · exact ⟨⟨_, rfl⟩, hge⟩
  · exfalso
    rw [f3] at hlt
    rcases advanceInterval_cases g e c with ⟨hge, h1⟩ | ⟨-, h1⟩
    · rcases advanceSequence_cases g1 e c with ⟨-, a2, -⟩ | ⟨-, -, a3⟩ | ⟨-, a3⟩
      · rw [f6] at a2
        omega
      · rw [a3] at hadv
        cases hadv
        dsimp only at hnw
        omega
      · rw [a3] at hadv
        cases hadv
        dsimp only at hnw
        omega
    · rw [← hg1] at h1
      rw [h1] at hlt
      omega

/-- On an expired generator whose time counter never wraps, no call succeeds. -/
theorem successes_of_Expired (rs : List (Int × Int)) :
    ∀ g : Generator, Expired g → CounterNeverWraps g rs → successes (runCalls g rs) = [] := by
  induction rs with
  | nil =>
    intro g _ _
    rfl
  | cons r rest ih =>
    intro g hx hnw
    rw [CounterNeverWraps] at hnw
    obtain ⟨⟨err, herr⟩, hx1⟩ := GetNextID_of_Expired r.1 r.2 hx hnw.1
    rw [runCalls, herr, successes]
    exact ih _ hx1 hnw.2

/-- C11: once a call of `GetNextID` has returned the expiry error (the time counter is at
least `2 ^ timeBit`), every later call on that generator fails as well and returns no
identifier, for any later clock readings, as long as the 64-bit time counter does not wrap
around. -/
theorem C11_expiry_permanent (g : Generator) (c s : Int) (rs : List (Int × Int))
    (hexp : (GetNextID g c s).result = .error .expired)
    (hnw : CounterNeverWraps (GetNextID g c s).gen rs) :
    (∀ r ∈ runCalls (GetNextID g c s).gen rs, ∃ err, r = .error err) ∧
    successes (runCalls (GetNextID g c s).gen rs) = [] := by
  have hs := successes_of_Expired rs _ (GetNextID_expired_gen hexp) hnw
  refine ⟨?_, hs⟩
  generalize runCalls (GetNextID g c s).gen rs = l at hs
  intro r hr
  induction l with
  | nil => cases hr
  | cons x rest ih =>
    cases x with
    | error err =>
      rw [successes] at hs
      rcases List.mem_cons.1 hr with h | h
      · exact ⟨err, h⟩
      · exact ih hs h
    | ok i =>
      rw [successes] at hs
      cases hs

/-- C11 (witness): a generator of widths 2/61/1 with time counter 4 returns the expiry
error at clock reading 30, and the three later calls, also one with an earlier clock
reading, return no identifier. -/
theorem C11_expiry_permanent_witness :
    (GetNextID ⟨0, 1, 4, 2, 61, 1, 10, 20⟩ 30 30).result = .error .expired ∧
    CounterNeverWraps (GetNextID ⟨0, 1, 4, 2, 61, 1, 10, 20⟩ 30 30).gen
      [(31, 31), (25, 25), (50, 50)] ∧
    successes (runCalls (GetNextID ⟨0, 1, 4, 2, 61, 1, 10, 20⟩ 30 30).gen
      [(31, 31), (25, 25), (50, 50)]) = [] :=
  ⟨by decide, by decide,
    (C11_expiry_permanent ⟨0, 1, 4, 2, 61, 1, 10, 20⟩ 30 30 [(31, 31), (25, 25), (50, 50)]
      (by decide) (by decide)).2⟩

/-! ## Lookup failure, composition and decoding of identifiers -/

/-- C12 (evaluation of the code where the claim fails): when the lookup of the machine
identity fails, `NewIDGenerator` returns the lookup error for every configuration, also for
an explicit, fully valid one such as 38/6/16 with `MachineID` 3: the lookup is made, and its
error returned, before the configuration is read. -/
theorem C12_lookup_failure_fails_every_config :
    ValidConfig ⟨38, 6, 16, 3, 1000000⟩ ∧
    NewIDGenerator (some ⟨38, 6, 16, 3, 1000000⟩) (.error .lookupFailed) 0 =
      .error .lookupFailed ∧
    ∀ (idConfig : Option IDConfig) (err : GenError) (now : Int),
      NewIDGenerator idConfig (.error err) now = .error err :=
  ⟨by decide, rfl, fun _ _ _ => rfl⟩

/-- C13: for every generator state `newID` returns
`(timeCounter << (machineBit + sequenceBit)) | (machineID << sequenceBit) | seqenceNum`,
each shift reduced to a `uint64` word and the shift count `machineBit + sequenceBit`
being a `uint16` sum; with `machineBit` 16, `sequenceBit` 10 and `machineID` 1 the word is
`(0 << 26) | (1 << 10) | seqenceNum` at time counter 0 and `(9 << 26) | (1 << 10) | 1024`
at time counter 9 and sequence counter 1024. -/
theorem C13_identifier_composition (g : Generator) :
    newID g =
      ((g.timeCounter <<< ((g.machineBit + g.sequenceBit) % 2 ^ 16)) % 2 ^ 64 |||
        (g.machineID <<< g.sequenceBit) % 2 ^ 64) ||| g.seqenceNum ∧
    (g.machineBit + g.sequenceBit < 2 ^ 16 →
      newID g =
        ((g.timeCounter <<< (g.machineBit + g.sequenceBit)) % 2 ^ 64 |||
          (g.machineID <<< g.sequenceBit) % 2 ^ 64) ||| g.seqenceNum) ∧
    (∀ (seqenceNum timeBit : Nat) (rate lastTimeStamp : Int),
      newID ⟨seqenceNum, 1, 0, timeBit, 16, 10, rate, lastTimeStamp⟩ =
        ((0 <<< 26) ||| (1 <<< 10)) ||| seqenceNum) ∧
    (∀ (timeBit : Nat) (rate lastTimeStamp : Int),
      newID ⟨1024, 1, 9, timeBit, 16, 10, rate, lastTimeStamp⟩ =
        ((9 <<< 26) ||| (1 <<< 10)) ||| 1024) := by
  refine ⟨?_, ?_, ?_, ?_⟩
  · unfold newID shl64 add16
    simp only [Nat.shiftLeft_eq]
  · intro h
    unfold newID shl64 add16
    simp only [Nat.shiftLeft_eq, Nat.mod_eq_of_lt h]
  · intro seqenceNum timeBit rate lastTimeStamp
    have h1 : shl64 0 (add16 16 10) = 0 <<< 26 := by decide
    have h2 : shl64 1 10 = 1 <<< 10 := by decide
    unfold newID
    dsimp only
    rw [h1, h2]
  · intro timeBit rate lastTimeStamp
    have h1 : shl64 9 (add16 16 10) = 9 <<< 26 := by decide
    have h2 : shl64 1 10 = 1 <<< 10 := by decide
    unfold newID
    dsimp only
    rw [h1, h2]

/-- C13 (witness): the composition at the state of the test, with time counter 9, machine
identity 1 and sequence counter 1024 in the layout 38/16/10; the word is 603980800. -/
theorem C13_identifier_composition_witness :
    newID ⟨1024, 1, 9, 38, 16, 10, 1000000000, 0⟩ =
      ((9 <<< (16 + 10)) % 2 ^ 64 ||| (1 <<< 10) % 2 ^ 64) ||| 1024 ∧
    newID ⟨1024, 1, 9, 38, 16, 10, 1000000000, 0⟩ = 603980800 :=
  ⟨(C13_identifier_composition ⟨1024, 1, 9, 38, 16, 10, 1000000000, 0⟩).2.1 (by decide),
    by decide⟩

/-- C18 (evaluation of the code where the claim fails): the generator of the valid
configuration 2/6/1 with machine identity 1 and interval 10, built at clock reading 0 and
called at the readings 10, 10, 20, 20. The fourth call passes the expiry check with time
counter 3, rolls the sequence counter over, increments the time counter to
`4 = 2 ^ timeBit` and returns the identifier 514 composed with it: the time field of 514,
above the 7 bits of the other fields, is 4 and not at most `2 ^ timeBit - 1 = 3`. -/
theorem C18_identifier_composed_at_limit :
    ValidConfig ⟨2, 6, 1, 1, 10⟩ ∧
    NewIDGenerator (some ⟨2, 6, 1, 1, 10⟩) (.ok 7) 0 = .ok ⟨0, 1, 0, 2, 6, 1, 10, 0⟩ ∧
    runCalls ⟨0, 1, 0, 2, 6, 1, 10, 0⟩
        [(10, 10), (10, 20), (20, 20), (20, 30), (30, 30)] =
      [.ok ⟨131, 10⟩, .ok ⟨258, 20⟩, .ok ⟨387, 20⟩, .ok ⟨514, 30⟩,
        .error .expired] ∧
    GetNextID ⟨1, 1, 3, 2, 6, 1, 10, 20⟩ 20 30 =
      { gen := ⟨0, 1, 4, 2, 6, 1, 10, 20⟩, slept := some 10, result := .ok ⟨514, 30⟩ } ∧
    newID ⟨0, 1, 4, 2, 6, 1, 10, 20⟩ = 514 ∧
    514 >>> (6 + 1) = 4 ∧ ¬ (4 ≤ 2 ^ 2 - 1) := by
  decide

/-- The three fields of a composed word, when the widths sum to at most 64 and every field
holds a value inside its width: one field per division by a power of two. -/
theorem newID_decode {g : Generator}
    (hsum : g.machineBit + g.sequenceBit + g.timeBit ≤ 64)
    (htc : g.timeCounter < 2 ^ g.timeBit) (hmid : g.machineID < 2 ^ g.machineBit)
    (hseq : g.seqenceNum < 2 ^ g.sequenceBit) :
    newID g / 2 ^ (g.machineBit + g.sequenceBit) = g.timeCounter ∧
    newID g / 2 ^ g.sequenceBit % 2 ^ g.machineBit = g.machineID ∧
    newID g % 2 ^ g.sequenceBit = g.seqenceNum := by
  have hP : 0 < 2 ^ g.sequenceBit := Nat.two_pow_pos _
  have hM : 0 < 2 ^ g.machineBit := Nat.two_pow_pos _
  have hK : g.timeCounter < 2 ^ (64 - (g.machineBit + g.sequenceBit)) :=
    lt_of_lt_of_le htc (Nat.pow_le_pow_right (by decide) (by omega))
  rw [newID_eq_of_bounds (by omega) hmid hseq, Nat.mod_eq_of_lt hK]
  have hdiv : (2 ^ g.sequenceBit * (2 ^ g.machineBit * g.timeCounter + g.machineID) +
      g.seqenceNum) / 2 ^ g.sequenceBit = 2 ^ g.machineBit * g.timeCounter + g.machineID := by
    rw [Nat.mul_add_div hP, Nat.div_eq_of_lt hseq, Nat.add_zero]
  refine ⟨?_, ?_, ?_⟩
  · rw [Nat.add_comm g.machineBit, Nat.pow_add, ← Nat.div_div_eq_div_mul, hdiv,
      Nat.mul_add_div hM, Nat.div_eq_of_lt hmid, Nat.add_zero]
  · rw [hdiv, Nat.mul_add_mod, Nat.mod_eq_of_lt hmid]
  · rw [Nat.mul_add_mod, Nat.mod_eq_of_lt hseq]

/-- C19: for widths with `machineBit + sequenceBit + timeBit <= 64` and values
`timeCounter < 2 ^ timeBit`, `machineID < 2 ^ machineBit`, `seqenceNum < 2 ^ sequenceBit`,
the word `v` composed by `newID` decodes back to its fields:
`v >> (machineBit + sequenceBit) = timeCounter`,
`(v >> sequenceBit) mod 2 ^ machineBit = machineID` and
`v mod 2 ^ sequenceBit = seqenceNum`; hence two in-range states of one layout that compose
the same word have the same three fields. -/
theorem C19_bit_field_round_trip (g : Generator)
    (hsum : g.machineBit + g.sequenceBit + g.timeBit ≤ 64)
    (htc : g.timeCounter < 2 ^ g.timeBit) (hmid : g.machineID < 2 ^ g.machineBit)
    (hseq : g.seqenceNum < 2 ^ g.sequenceBit) :
    newID g >>> (g.machineBit + g.sequenceBit) = g.timeCounter ∧
    (newID g >>> g.sequenceBit) % 2 ^ g.machineBit = g.machineID ∧
    newID g % 2 ^ g.sequenceBit = g.seqenceNum ∧
    ∀ g2 : Generator,
      g2.timeBit = g.timeBit → g2.machineBit = g.machineBit →
      g2.sequenceBit = g.sequenceBit →
      g2.timeCounter < 2 ^ g2.timeBit → g2.machineID < 2 ^ g2.machineBit →
      g2.seqenceNum < 2 ^ g2.sequenceBit →
      newID g2 = newID g →
      g2.timeCounter = g.timeCounter ∧ g2.machineID = g.machineID ∧
        g2.seqenceNum = g.seqenceNum := by
  obtain ⟨d1, d2, d3⟩ := newID_decode hsum htc hmid hseq
  refine ⟨?_, ?_, d3, ?_⟩
  · rw [Nat.shiftRight_eq_div_pow]
    exact d1
  · rw [Nat.shiftRight_eq_div_pow]
    exact d2
  · intro g2 etb emb esb htc2 hmid2 hseq2 heq
    obtain ⟨k1, k2, k3⟩ := newID_decode (by rw [etb, emb, esb]; exact hsum) htc2 hmid2 hseq2
    rw [heq, emb, esb] at k1 k2
    rw [heq, esb] at k3
    exact ⟨k1.symm.trans d1, k2.symm.trans d2, k3.symm.trans d3⟩

/-- C19 (witness): decoding the identifier 603980801 composed in the layout 38/16/10 from
time counter 9, machine identity 1 and sequence counter 1. -/
theorem C19_bit_field_round_trip_witness :
    newID ⟨1, 1, 9, 38, 16, 10, 1000000, 0⟩ = 603980801 ∧
    newID ⟨1, 1, 9, 38, 16, 10, 1000000, 0⟩ >>> (16 + 10) = 9 ∧
    (newID ⟨1, 1, 9, 38, 16, 10, 1000000, 0⟩ >>> 10) % 2 ^ 16 = 1 ∧
    newID ⟨1, 1, 9, 38, 16, 10, 1000000, 0⟩ % 2 ^ 10 = 1 :=
  have h := C19_bit_field_round_trip ⟨1, 1, 9, 38, 16, 10, 1000000, 0⟩
    (by decide) (by decide) (by decide) (by decide)
  ⟨by decide, h.1, h.2.1, h.2.2.1⟩

/-! ## Rollover of the sequence counter -/

/-- Two wrapped `int64` operations in a row give the exact result when it is in range. -/
theorem wrapInt64_add_sub {a b c : Int} (h1 : -2 ^ 63 ≤ a + b - c) (h2 : a + b - c < 2 ^ 63) :
    wrapInt64 (wrapInt64 (a + b) - c) = a + b - c := by
  unfold wrapInt64
  norm_num at h1 h2 ⊢
  omega

/-- A sequence counter that is at least `2 ^ sequenceBit - 1` is found saturated by the
check of `GetNextID`, for every width. -/
theorem saturated_of_ge {g : Generator} (hsat : 2 ^ g.sequenceBit - 1 ≤ g.seqenceNum) :
    g.seqenceNum ≥ sub64 (shl64 1 g.sequenceBit) 1 := by
  by_cases hsb : g.sequenceBit < 64
  · rw [sub64_shl64_one hsb]
    exact hsat
  · have hle : 2 ^ 64 ≤ 2 ^ g.sequenceBit := Nat.pow_le_pow_right (by decide) (by omega)
    have hs : sub64 (shl64 1 g.sequenceBit) 1 < 2 ^ 64 := by
      unfold sub64
      exact Nat.mod_lt _ (Nat.two_pow_pos _)
    omega

/-- C20: whenever a call of `GetNextID` gets to the sequence check (the time counter is
below the expiry limit) and finds the sequence counter saturated
(`seqenceNum >= 2 ^ sequenceBit - 1`) while the current interval has not elapsed
(`0 <= now - lastTimeStamp < rate`), the sleep it requests is
`rate - (now - lastTimeStamp)`, strictly positive and at most one interval; the call resets
the sequence counter to 0, increments the time counter by exactly 1, changes nothing else
and returns an identifier. The rate is an `int64`. -/
theorem C20_bounded_rollover_wait (g : Generator) (c s : Int) (hrate63 : g.rate < 2 ^ 63)
    (hlive : g.timeCounter < shl64 1 g.timeBit)
    (hsat : 2 ^ g.sequenceBit - 1 ≤ g.seqenceNum)
    (h0 : 0 ≤ c - g.lastTimeStamp) (h1 : c - g.lastTimeStamp < g.rate) :
    (GetNextID g c s).slept = some (g.rate - (c - g.lastTimeStamp)) ∧
    0 < g.rate - (c - g.lastTimeStamp) ∧ g.rate - (c - g.lastTimeStamp) ≤ g.rate ∧
    (GetNextID g c s).gen =
      { g with seqenceNum := 0, timeCounter := g.timeCounter + 1 } ∧
    (GetNextID g c s).result =
      .ok { IDNum := newID { g with seqenceNum := 0, timeCounter := g.timeCounter + 1 },
            timestamp := s } := by
  have hsat2 := saturated_of_ge hsat
  have hshl : shl64 1 g.timeBit < 2 ^ 64 := by
    unfold shl64
    exact Nat.mod_lt _ (Nat.two_pow_pos _)
  have hadd : add64 g.timeCounter 1 = g.timeCounter + 1 := add64_one (by omega)
  have hsleep : wrapInt64 (wrapInt64 (g.lastTimeStamp + g.rate) - c) =
      g.rate - (c - g.lastTimeStamp) := by
    rw [wrapInt64_add_sub (by omega) (by omega)]
    omega
  obtain ⟨e, g1, he, hg1, hc⟩ := GetNextID_cases g c s
  rw [wrapInt64_of_range (by omega) (by omega)] at he
  have h1g : g1 = g := by
    rcases advanceInterval_cases g e c with ⟨hge, -⟩ | ⟨-, hsame⟩
    · omega
    · rw [hg1, hsame]
  subst h1g
  refine ⟨?_, by omega, by omega, ?_, ?_⟩ <;>
    rcases hc with ⟨hneg, -⟩ | ⟨-, hge, -⟩ | ⟨-, -, g2, sl, hadv, heq⟩ <;>
    first
      | omega
      | (rcases advanceSequence_cases g1 e c with ⟨-, -, a3⟩ | ⟨-, a2, -⟩ | ⟨a1, -⟩
         · rw [a3, hadd, hsleep] at hadv
           cases hadv
           rw [heq]
         · omega
         · omega)

/-- C20 (witness): a generator of the layout 38/16/10 with interval 1000000 and saturated
sequence counter 1023, called 400000 ns after its last recorded reading, sleeps 600000 ns,
sets the sequence counter to 0 and the time counter from 5 to 6, and returns the
identifier composed from that state. -/
theorem C20_bounded_rollover_wait_witness :
    (GetNextID ⟨1023, 1, 5, 38, 16, 10, 1000000, 2000000⟩ 2400000 3000000).slept =
      some (1000000 - (2400000 - 2000000)) ∧
    (GetNextID ⟨1023, 1, 5, 38, 16, 10, 1000000, 2000000⟩ 2400000 3000000).gen =
      ⟨0, 1, 6, 38, 16, 10, 1000000, 2000000⟩ ∧
    (GetNextID ⟨1023, 1, 5, 38, 16, 10, 1000000, 2000000⟩ 2400000 3000000).result =
      .ok ⟨newID ⟨0, 1, 6, 38, 16, 10, 1000000, 2000000⟩, 3000000⟩ :=
  have h := C20_bounded_rollover_wait ⟨1023, 1, 5, 38, 16, 10, 1000000, 2000000⟩
    2400000 3000000 (by decide) (by decide) (by decide) (by decide) (by decide)
  ⟨h.1, h.2.2.2.1, h.2.2.2.2⟩

/-! ## The factory -/

/-- C14: `NewIDFactory` returns an error, and no factory, exactly when `WorkerIDs` is not
empty and its length differs from `NumOfWorkers`; in every other case it returns a factory
whose priority queue is empty and whose configuration is the one supplied. -/
theorem C14_factory_construction (w : FactoryConfig) :
    ((∃ e, NewIDFactory w = .error e) ↔
      (w.WorkerIDs ≠ [] ∧ w.WorkerIDs.length ≠ w.NumOfWorkers)) ∧
    (¬ (w.WorkerIDs ≠ [] ∧ w.WorkerIDs.length ≠ w.NumOfWorkers) →
      ∃ m, NewIDFactory w = .ok m ∧ m.idQueue = [] ∧ m.factoryConfig = w) := by
  have hiff : (w.NumOfWorkers ≠ w.WorkerIDs.length ∧ w.WorkerIDs.length > 0) ↔
      (w.WorkerIDs ≠ [] ∧ w.WorkerIDs.length ≠ w.NumOfWorkers) := by
    rw [← List.length_pos]
    omega
  unfold NewIDFactory
  by_cases h : w.NumOfWorkers ≠ w.WorkerIDs.length ∧ w.WorkerIDs.length > 0
  · rw [if_pos h]
    exact ⟨⟨fun _ => hiff.1 h, fun _ => ⟨_, rfl⟩⟩, fun hn => absurd (hiff.1 h) hn⟩
  · rw [if_neg h]
    refine ⟨⟨?_, fun hc => absurd (hiff.2 hc) h⟩, fun _ => ⟨_, rfl, rfl, rfl⟩⟩
    rintro ⟨e, he⟩
    cases he

/-- C14 (witness): the configuration of `example.go`, 5 workers and no list of worker
identities, is accepted. -/
theorem C14_factory_construction_witness :
    ∃ m, NewIDFactory ⟨5, 32768, [], some ⟨38, 6, 16, 0, 1000000⟩⟩ = .ok m ∧
      m.idQueue = [] ∧ m.factoryConfig = ⟨5, 32768, [], some ⟨38, 6, 16, 0, 1000000⟩⟩ :=
  (C14_factory_construction ⟨5, 32768, [], some ⟨38, 6, 16, 0, 1000000⟩⟩).2 (by decide)

/-- An accepted configuration is stored in the factory. -/
theorem NewIDFactory_ok {w : FactoryConfig} {m : IDFactory} (h : NewIDFactory w = .ok m) :
    m.factoryConfig = w ∧ (w.WorkerIDs = [] ∨ w.WorkerIDs.length = w.NumOfWorkers) := by
  unfold NewIDFactory at h
  by_cases hc : w.NumOfWorkers ≠ w.WorkerIDs.length ∧ w.WorkerIDs.length > 0
  · rw [if_pos hc] at h
    cases h
  · rw [if_neg hc] at h
    cases Except.ok.inj h
    refine ⟨rfl, ?_⟩
    by_cases he : w.WorkerIDs = []
    · exact Or.inl he
    · have := List.length_pos.2 he
      exact Or.inr (by omega)

/-- A hired worker: the template is present, the lookup of that worker succeeded, and the
generator is the one `NewIDGenerator` builds from the template with the identity of the
worker. -/
theorem hireWorker_ok {m : IDFactory} {lookup : Except GenError Nat} {now : Int} {i : Nat}
    {wk : Worker} (h : hireWorker m lookup now i = .ok wk) :
    ∃ t ip, m.factoryConfig.IDConfig = some t ∧ lookup = .ok ip ∧
      NewIDGenerator
        (some ⟨t.TimeBit, t.MachineBit, t.SequenceBit, workerID m.factoryConfig i,
          t.GenerationRate⟩) (.ok ip) now = .ok wk.generator ∧
      wk.workNum = m.factoryConfig.NumOfIDsPerWorker := by
  unfold hireWorker at h
  cases ht : m.factoryConfig.IDConfig with
  | none =>
    rw [ht] at h
    cases h
  | some t =>
    rw [ht] at h
    dsimp only at h
    cases hl : lookup with
    | error e =>
      rw [hl] at h
      cases h
    | ok ip =>
      rw [hl] at h
      cases hg : NewIDGenerator
          (some ⟨t.TimeBit, t.MachineBit, t.SequenceBit, workerID m.factoryConfig i,
            t.GenerationRate⟩) (.ok ip) now with
      | error e =>
        rw [hg] at h
        cases h
      | ok g =>
        rw [hg] at h
        cases Except.ok.inj h
        exact ⟨t, ip, rfl, rfl, hg, rfl⟩

/-- A successful run of the loop of `hireWorkers` appends exactly `todo` workers, and worker
`k` of them is the one hired for index `i + k`. -/
theorem hireLoop_ok (m : IDFactory) (lookup : Nat → Except GenError Nat) (now : Nat → Int) :
    ∀ (todo i : Nat) (acc ws : List Worker),
      hireLoop m lookup now todo i acc = .ok ws →
      ∃ new, ws = acc ++ new ∧ new.length = todo ∧
        ∀ k wk, new[k]? = some wk →
          hireWorker m (lookup (i + k)) (now (i + k)) (i + k) = .ok wk := by
  intro todo
  induction todo with
  | zero =>
    intro i acc ws h
    rw [hireLoop] at h
    cases Except.ok.inj h
    exact ⟨[], by simp, rfl, by simp⟩
  | succ todo ih =>
    intro i acc ws h
    rw [hireLoop] at h
    cases hw : hireWorker m (lookup i) (now i) i with
    | error e =>
      rw [hw] at h
      cases h
    | ok w =>
      rw [hw] at h
      obtain ⟨new, hws, hlen, hall⟩ := ih (i + 1) (acc ++ [w]) ws h
      refine ⟨w :: new, by rw [hws]; simp, by simp [hlen], ?_⟩
      intro k wk hk
      cases k with
      | zero =>
        simp only [List.getElem?_cons_zero, Option.some.injEq] at hk
        subst hk
        exact hw
      | succ k =>
        simp only [List.getElem?_cons_succ] at hk
        have := hall k wk hk
        rw [show i + 1 + k = i + (k + 1) by omega] at this
        exact this

/-- The machine identity a generator gets from a configuration that passes the guard:
the configured one when it fits its field, or when the machine width is 0; the default one
otherwise. -/
theorem machineFields_snd (c d : IDConfig) (h64 : c.MachineBit < 64) :
    (machineFields c d).2 =
      if c.MachineBit = 0 ∨ c.MachineID < 2 ^ c.MachineBit then c.MachineID
      else d.MachineID := by
  unfold machineFields
  rw [shl64_one h64]
  by_cases h0 : c.MachineBit = 0
  · rw [if_pos h0, if_pos (Or.inl h0)]
  · rw [if_neg h0]
    by_cases hlt : c.MachineID < 2 ^ c.MachineBit
    · rw [if_neg (by omega), if_pos (Or.inr hlt)]
    · rw [if_pos ⟨by omega, by omega⟩, if_neg (by omega)]

/-- The identity `hireWorkers` gives worker `i` of an accepted configuration with more
than `i` workers: the index when there is no list, entry `i` of the list otherwise. -/
theorem workerID_spec {w : FactoryConfig} {i : Nat}
    (hlen : w.WorkerIDs = [] ∨ w.WorkerIDs.length = w.NumOfWorkers)
    (hi : i < w.NumOfWorkers) :
    (w.WorkerIDs = [] → workerID w i = i) ∧
    (w.WorkerIDs ≠ [] → w.WorkerIDs[i]? = some (workerID w i)) := by
  unfold workerID
  constructor
  · intro he
    rw [he]
    simp
  · intro hne
    have hpos := List.length_pos.2 hne
    rcases hlen with he | hl
    · exact absurd he hne
    · have hi2 : i < w.WorkerIDs.length := by omega
      rw [if_pos ⟨hpos, hi2⟩, List.getD_eq_getElem?_getD, List.getElem?_eq_getElem hi2]
      rfl

/-- Worker `i` of a successful `hireWorkers` on an accepted configuration. -/
theorem hireWorkers_worker {w : FactoryConfig} {m : IDFactory}
    {lookup : Nat → Except GenError Nat} {now : Nat → Int} {ws : List Worker}
    (hm : NewIDFactory w = .ok m) (hw : hireWorkers m lookup now = .ok ws) :
    ws.length = w.NumOfWorkers ∧
    ∀ i wk, ws[i]? = some wk →
      ∃ t ip, w.IDConfig = some t ∧ lookup i = .ok ip ∧
        (IdentityFits t w i → wk.generator.machineID = workerID w i) ∧
        (¬ IdentityFits t w i → wk.generator.machineID = ip) := by
  obtain ⟨hcfg, -⟩ := NewIDFactory_ok hm
  unfold hireWorkers at hw
  obtain ⟨new, hws, hlen2, hall⟩ := hireLoop_ok m lookup now _ 0 [] ws hw
  rw [List.nil_append] at hws
  subst hws
  rw [hcfg] at hlen2
  refine ⟨hlen2, ?_⟩
  intro i wk hwk
  have hone := hall i wk hwk
  rw [Nat.zero_add] at hone
  obtain ⟨t, ip, ht, hl, hg, -⟩ := hireWorker_ok hone
  rw [hcfg] at ht hg
  obtain ⟨hr, -, -, -, -, hmid, -⟩ := NewIDGenerator_ok_fields hg
  rw [bitsRejected_iff] at hr
  dsimp only at hr
  rw [machineFields_snd _ _ (by dsimp only; omega)] at hmid
  dsimp only [defaultConfig] at hmid
  refine ⟨t, ip, ht, hl, ?_, ?_⟩
  · intro hfit
    unfold IdentityFits at hfit
    rw [hmid, if_pos hfit]
  · intro hfit
    unfold IdentityFits at hfit
    rw [hmid, if_neg hfit]

/-- C15 (counterexample): the accepted configuration with two workers, the worker
identities 64 and 65 and the template 38/6/16. Neither identity fits 6 bits, so
`NewIDGenerator` replaces both by the default identity (the looked-up address, here 7):
`hireWorkers` succeeds, worker 0 has machine identity 7 and not 64, and the two workers
have the same machine identity although the identities of the list are distinct. -/
theorem C15_counterexample_identity_replaced :
    NewIDFactory ⟨2, 1, [64, 65], some ⟨38, 6, 16, 0, 1000000⟩⟩ =
      .ok ⟨[], ⟨2, 1, [64, 65], some ⟨38, 6, 16, 0, 1000000⟩⟩, 1⟩ ∧
    hireWorkers ⟨[], ⟨2, 1, [64, 65], some ⟨38, 6, 16, 0, 1000000⟩⟩, 1⟩
        (fun _ => .ok 7) (fun _ => 0) =
      .ok [⟨⟨0, 7, 0, 38, 0, 16, 1000000, 0⟩, 1⟩,
        ⟨⟨0, 7, 0, 38, 0, 16, 1000000, 0⟩, 1⟩] ∧
    (⟨0, 7, 0, 38, 0, 16, 1000000, 0⟩ : Generator).machineID ≠ 64 ∧
    ([64, 65] : List Nat).Nodup := by
  decide

/-- C15 (amended): for every `FactoryConfig` accepted by `NewIDFactory` for which
`hireWorkers` succeeds, `hireWorkers` returns exactly `NumOfWorkers` workers; the identity
of worker `i` is `WorkerIDs[i]` when `WorkerIDs` is not empty and `i` otherwise, and the
generator of worker `i` has that identity as `machineID` whenever the identity fits the
machine field of the template (`MachineBit = 0`, or identity below `2 ^ MachineBit`); an
identity that does not fit is replaced by the default identity, the result of the lookup
made for that worker. Hence two workers whose identities fit and differ have different
machine identities. -/
theorem C15_worker_identity (w : FactoryConfig) (m : IDFactory)
    (lookup : Nat → Except GenError Nat) (now : Nat → Int) (ws : List Worker)
    (hm : NewIDFactory w = .ok m) (hw : hireWorkers m lookup now = .ok ws) :
    ws.length = w.NumOfWorkers ∧
    (∀ i wk, ws[i]? = some wk →
      ∃ t ip, w.IDConfig = some t ∧ lookup i = .ok ip ∧
        (w.WorkerIDs = [] → workerID w i = i) ∧
        (w.WorkerIDs ≠ [] → w.WorkerIDs[i]? = some (workerID w i)) ∧
        (IdentityFits t w i → wk.generator.machineID = workerID w i) ∧
        (¬ IdentityFits t w i → wk.generator.machineID = ip)) ∧
    (∀ i j wi wj t, ws[i]? = some wi → ws[j]? = some wj → w.IDConfig = some t →
      IdentityFits t w i → IdentityFits t w j → workerID w i ≠ workerID w j →
      wi.generator.machineID ≠ wj.generator.machineID) := by
  obtain ⟨hlen, hall⟩ := hireWorkers_worker hm hw
  obtain ⟨-, hlist⟩ := NewIDFactory_ok hm
  refine ⟨hlen, ?_, ?_⟩
  · intro i wk hwk
    obtain ⟨t, ip, ht, hl, h1, h2⟩ := hall i wk hwk
    have hi : i < w.NumOfWorkers := by
      rw [← hlen]
      exact (List.getElem?_eq_some.1 hwk).1
    obtain ⟨s1, s2⟩ := workerID_spec hlist hi
    exact ⟨t, ip, ht, hl, s1, s2, h1, h2⟩
  · intro i j wi wj t hi hj ht fi fj hne heq
    obtain ⟨t1, -, ht1, -, h1, -⟩ := hall i wi hi
    obtain ⟨t2, -, ht2, -, h2, -⟩ := hall j wj hj
    rw [ht] at ht1 ht2
    cases ht1
    cases ht2
    rw [h1 fi, h2 fj] at heq
    exact hne heq

/-- C15 (witness): the configuration of `example.go` with two workers and no list: the
workers get the machine identities 0 and 1. -/
theorem C15_worker_identity_witness :
    NewIDFactory ⟨2, 32768, [], some ⟨38, 6, 16, 0, 1000000⟩⟩ =
      .ok ⟨[], ⟨2, 32768, [], some ⟨38, 6, 16, 0, 1000000⟩⟩, 1⟩ ∧
    hireWorkers ⟨[], ⟨2, 32768, [], some ⟨38, 6, 16, 0, 1000000⟩⟩, 1⟩
        (fun _ => .ok 7) (fun _ => 0) =
      .ok [⟨⟨0, 0, 0, 38, 6, 16, 1000000, 0⟩, 32768⟩,
        ⟨⟨0, 1, 0, 38, 6, 16, 1000000, 0⟩, 32768⟩] ∧
    ([⟨⟨0, 0, 0, 38, 6, 16, 1000000, 0⟩, 32768⟩,
        ⟨⟨0, 1, 0, 38, 6, 16, 1000000, 0⟩, 32768⟩] : List Worker).length = 2 :=
  ⟨by decide, by decide,
    (C15_worker_identity ⟨2, 32768, [], some ⟨38, 6, 16, 0, 1000000⟩⟩
      ⟨[], ⟨2, 32768, [], some ⟨38, 6, 16, 0, 1000000⟩⟩, 1⟩
      (fun _ => .ok 7) (fun _ => 0) _ (by decide) (by decide)).1⟩

/-! ## The order of the queue -/

/-- The order of the queue is the strict lexicographic order on time stamp, then number. -/
theorem lessID_iff (a b : ID) :
    lessID a b = true ↔
      a.timestamp < b.timestamp ∨ (a.timestamp = b.timestamp ∧ a.IDNum < b.IDNum) := by
  unfold lessID
  by_cases h : a.timestamp = b.timestamp
  · rw [if_pos h, decide_eq_true_iff]
    omega
  · rw [if_neg h, decide_eq_true_iff]
    omega

/-- An identifier is not before another: it has the later time stamp, or the same time
stamp and a number that is not smaller. -/
theorem lessID_false_iff (a b : ID) :
    lessID a b = false ↔
      b.timestamp < a.timestamp ∨ (a.timestamp = b.timestamp ∧ b.IDNum ≤ a.IDNum) := by
  rw [← Bool.not_eq_true, lessID_iff]
  omega

/-- No identifier is before itself. -/
theorem lessID_irrefl (a : ID) : lessID a a = false := by
  rw [lessID_false_iff]
  omega

/-- Of two identifiers at most one is before the other. -/
theorem lessID_asymm {a b : ID} (h : lessID a b = true) : lessID b a = false := by
  rw [lessID_iff] at h
  rw [lessID_false_iff]
  omega

/-- "Not before" is transitive. -/
theorem lessID_false_trans {a b c : ID} (hab : lessID b a = false)
    (hbc : lessID c b = false) : lessID c a = false := by
  rw [lessID_false_iff] at hab hbc ⊢
  omega

/-! ## Swapping two items of the queue -/

/-- `Swap` keeps the length. -/
theorem Swap_length (h : PriorityQueue) (i j : Nat) : (h.Swap i j).length = h.length := by
  unfold PriorityQueue.Swap
  rw [List.length_set, List.length_set]

/-- The items after a `Swap` of two indices inside the queue. -/
theorem Swap_item (h : PriorityQueue) {i j : Nat} (hi : i < h.length) (hj : j < h.length)
    (k : Nat) :
    (h.Swap i j).item k =
      if k = j then h.item i else if k = i then h.item j else h.item k := by
  unfold PriorityQueue.Swap PriorityQueue.item
  rw [List.getD_eq_getElem?_getD, List.getElem?_set, List.getElem?_set, List.length_set]
  by_cases hkj : k = j
  · subst hkj
    rw [if_pos rfl, if_pos hj, if_pos rfl]
    rfl
  · rw [if_neg (Ne.symm hkj), if_neg hkj]
    by_cases hki : k = i
    · subst hki
      rw [if_pos rfl, if_pos hi, if_pos rfl]
      rfl
    · rw [if_neg (Ne.symm hki), if_neg hki, List.getD_eq_getElem?_getD]

/-- `Swap` of two indices inside the queue keeps the items as a multiset. -/
theorem Swap_perm (h : PriorityQueue) {i j : Nat} (hi : i < h.length) (hj : j < h.length) :
    (h.Swap i j).Perm h := by
  rw [List.perm_iff_count]
  intro b
  have hgi : h.item i = h[i] := List.getD_eq_getElem h default hi
  have hgj : h.item j = h[j] := List.getD_eq_getElem h default hj
  have hj1 : j < (h.set i (h.item j)).length := by
    rw [List.length_set]
    exact hj
  have hmid : (h.set i (h.item j))[j] = h[j] := by
    rw [List.getElem_set]
    by_cases hij : i = j
    · rw [if_pos hij, hgj]
    · rw [if_neg hij]
  unfold PriorityQueue.Swap
  rw [List.count_set _ _ _ _ hj1, List.count_set _ _ _ _ hi, hmid, hgi, hgj]
  have ci : (h[i] == b) = true → 0 < List.count b h := by
    intro hb
    rw [beq_iff_eq] at hb
    rw [List.count_pos_iff, ← hb]
    exact List.getElem_mem hi
  have hX : (if (h[i] == b) = true then 1 else 0) ≤ List.count b h := by
    by_cases e1 : (h[i] == b) = true
    · rw [if_pos e1]
      exact ci e1
    · rw [if_neg e1]
      exact Nat.zero_le _
  generalize (if (h[i] == b) = true then 1 else 0) = X at hX ⊢
  generalize (if (h[j] == b) = true then 1 else 0) = Y
  omega

/-! ## The loop of `up` -/

/-- One round of `up` that swaps: the state of the loop moves from `j` to its parent. -/
theorem HeapExceptUp_Swap {h : PriorityQueue} {n j i : Nat} (hi : i = (j - 1) / 2)
    (hj0 : 0 < j) (hjn : j < n) (hn : n ≤ h.length)
    (hlt : lessID (h.item j) (h.item i) = true) (hinv : HeapExceptUp h n j) :
    HeapExceptUp (h.Swap i j) n i := by
  obtain ⟨c1, c2⟩ := hinv
  have hs := Swap_item h (show i < h.length by omega) (show j < h.length by omega)
  have hij : lessID (h.item i) (h.item j) = false := lessID_asymm hlt
  constructor
  · intro k hk0 hkn hki
    by_cases hkj : k = j
    · have e1 : (h.Swap i j).item k = h.item i := by rw [hs, if_pos hkj]
      have e2 : (h.Swap i j).item ((k - 1) / 2) = h.item j := by
        rw [hs, if_neg (by omega), if_pos (by omega)]
      rw [e1, e2]
      exact hij
    · have e1 : (h.Swap i j).item k = h.item k := by rw [hs, if_neg hkj, if_neg hki]
      by_cases hpj : (k - 1) / 2 = j
      · have e2 : (h.Swap i j).item ((k - 1) / 2) = h.item i := by rw [hs, if_pos hpj]
        have h2 := c2 k hk0 hkn hpj hj0
        rw [← hi] at h2
        rw [e1, e2]
        exact h2
      · by_cases hpi : (k - 1) / 2 = i
        · have e2 : (h.Swap i j).item ((k - 1) / 2) = h.item j := by
            rw [hs, if_neg hpj, if_pos hpi]
          have h1 := c1 k hk0 hkn hkj
          rw [hpi] at h1
          rw [e1, e2]
          exact lessID_false_trans hij h1
        · have e2 : (h.Swap i j).item ((k - 1) / 2) = h.item ((k - 1) / 2) := by
            rw [hs, if_neg hpj, if_neg hpi]
          rw [e1, e2]
          exact c1 k hk0 hkn hkj
  · intro k hk0 hkn hpi hi0
    have e2 : (h.Swap i j).item ((i - 1) / 2) = h.item ((i - 1) / 2) := by
      rw [hs, if_neg (by omega), if_neg (by omega)]
    have hgi : lessID (h.item i) (h.item ((i - 1) / 2)) = false :=
      c1 i hi0 (by omega) (by omega)
    by_cases hkj : k = j
    · have e1 : (h.Swap i j).item k = h.item i := by rw [hs, if_pos hkj]
      rw [e1, e2]
      exact hgi
    · have e1 : (h.Swap i j).item k = h.item k := by
        rw [hs, if_neg hkj, if_neg (by omega)]
      have h1 := c1 k hk0 hkn hkj
      rw [hpi] at h1
      rw [e1, e2]
      exact lessID_false_trans hgi h1

/-- The loop of `up`, started at index `j` with at least `j` rounds, restores the heap
order, keeps the length and keeps the items as a multiset. -/
theorem upLoop_spec (n : Nat) :
    ∀ (rounds : Nat) (h : PriorityQueue) (j : Nat), j ≤ rounds → j < n → n ≤ h.length →
      HeapExceptUp h n j →
      IsHeap (heap.upLoop rounds h j) n ∧ (heap.upLoop rounds h j).length = h.length ∧
        (heap.upLoop rounds h j).Perm h := by
  intro rounds
  induction rounds with
  | zero =>
    intro h j hjr _ _ hinv
    rw [heap.upLoop]
    refine ⟨?_, rfl, List.Perm.refl _⟩
    intro k hk0 hkn
    exact hinv.1 k hk0 hkn (by omega)
  | succ rounds ih =>
    intro h j hjr hjn hn hinv
    rw [heap.upLoop]
    by_cases hstop : (j - 1) / 2 = j ∨ ¬ h.Less j ((j - 1) / 2) = true
    · rw [if_pos hstop]
      refine ⟨?_, rfl, List.Perm.refl _⟩
      intro k hk0 hkn
      by_cases hkj : k = j
      · rcases hstop with h0 | hless
        · omega
        · rw [hkj]
          unfold PriorityQueue.Less at hless
          exact Bool.eq_false_iff.2 hless
      · exact hinv.1 k hk0 hkn hkj
    · rw [if_neg hstop]
      have hj0 : 0 < j := by omega
      have hless : lessID (h.item j) (h.item ((j - 1) / 2)) = true := by
        by_contra hc
        exact hstop (Or.inr hc)
      have hstep := HeapExceptUp_Swap rfl hj0 hjn hn hless hinv
      obtain ⟨r1, r2, r3⟩ := ih (h.Swap ((j - 1) / 2) j) ((j - 1) / 2) (by omega) (by omega)
        (by rw [Swap_length]; exact hn) hstep
      refine ⟨r1, by rw [r2, Swap_length], r3.trans (Swap_perm h (by omega) (by omega))⟩

/-! ## The loop of `down` -/

/-- The child `down` picks at index `i` when `i` has a child below `n`: it is a child of
`i` below `n`, and no child of `i` below `n` is before it. -/
theorem chosen_child (h : PriorityQueue) {n i j : Nat} (hc : 2 * i + 1 < n)
    (hj : j = if 2 * i + 1 + 1 < n ∧ h.Less (2 * i + 1 + 1) (2 * i + 1) = true
      then 2 * i + 1 + 1 else 2 * i + 1) :
    j < n ∧ (j - 1) / 2 = i ∧ i < j ∧
      ∀ c, 0 < c → c < n → (c - 1) / 2 = i → lessID (h.item c) (h.item j) = false := by
  by_cases hr : 2 * i + 1 + 1 < n ∧ h.Less (2 * i + 1 + 1) (2 * i + 1) = true
  · rw [if_pos hr] at hj
    refine ⟨by omega, by omega, by omega, ?_⟩
    intro c hc0 hcn hpc
    have hcases : c = 2 * i + 1 ∨ c = 2 * i + 1 + 1 := by omega
    rcases hcases with e | e
    · rw [e, hj]
      exact lessID_asymm hr.2
    · rw [e, hj]
      exact lessID_irrefl _
  · rw [if_neg hr] at hj
    refine ⟨by omega, by omega, by omega, ?_⟩
    intro c hc0 hcn hpc
    have hcases : c = 2 * i + 1 ∨ c = 2 * i + 1 + 1 := by omega
    rcases hcases with e | e
    · rw [e, hj]
      exact lessID_irrefl _
    · rw [e, hj]
      have hlt : 2 * i + 1 + 1 < n := by omega
      by_contra hne
      exact hr ⟨hlt, Bool.of_not_eq_false hne⟩

/-- One round of `down` that swaps: the state of the loop moves from `i` to the child. -/
theorem HeapExceptDown_Swap {h : PriorityQueue} {n i j : Nat} (hjn : j < n)
    (hpj : (j - 1) / 2 = i) (hij : i < j) (hn : n ≤ h.length)
    (hmin : ∀ c, 0 < c → c < n → (c - 1) / 2 = i → lessID (h.item c) (h.item j) = false)
    (hlt : lessID (h.item j) (h.item i) = true) (hinv : HeapExceptDown h n i) :
    HeapExceptDown (h.Swap i j) n j := by
  obtain ⟨c1, c2⟩ := hinv
  have hs := Swap_item h (show i < h.length by omega) (show j < h.length by omega)
  constructor
  · intro k hk0 hkn hpk
    by_cases hkj : k = j
    · have e1 : (h.Swap i j).item k = h.item i := by rw [hs, if_pos hkj]
      have e2 : (h.Swap i j).item ((k - 1) / 2) = h.item j := by
        rw [hs, if_neg (by omega), if_pos (by omega)]
      rw [e1, e2]
      exact lessID_asymm hlt
    · by_cases hki : k = i
      · have e1 : (h.Swap i j).item k = h.item j := by rw [hs, if_neg hkj, if_pos hki]
        have e2 : (h.Swap i j).item ((k - 1) / 2) = h.item ((i - 1) / 2) := by
          rw [hs, if_neg (by omega), if_neg (by omega), hki]
        rw [e1, e2]
        exact c2 j (by omega) hjn hpj (by omega)
      · have e1 : (h.Swap i j).item k = h.item k := by rw [hs, if_neg hkj, if_neg hki]
        by_cases hpi : (k - 1) / 2 = i
        · have e2 : (h.Swap i j).item ((k - 1) / 2) = h.item j := by
            rw [hs, if_neg hpk, if_pos hpi]
          rw [e1, e2]
          exact hmin k hk0 hkn hpi
        · have e2 : (h.Swap i j).item ((k - 1) / 2) = h.item ((k - 1) / 2) := by
            rw [hs, if_neg hpk, if_neg hpi]
          rw [e1, e2]
          exact c1 k hk0 hkn hpi
  · intro k hk0 hkn hpk _
    have e1 : (h.Swap i j).item k = h.item k := by
      rw [hs, if_neg (by omega), if_neg (by omega)]
    have e2 : (h.Swap i j).item ((j - 1) / 2) = h.item j := by
      rw [hs, if_neg (by omega), if_pos hpj]
    have h1 := c1 k hk0 hkn (by omega)
    rw [hpk] at h1
    rw [e1, e2]
    exact h1

/-- The loop of `down`, started at index `i` with enough rounds to get to `n`, restores
the heap order on the first `n` items, keeps the length, keeps the items as a multiset and
does not touch the items from index `n` on. -/
theorem downLoop_spec (n : Nat) :
    ∀ (rounds : Nat) (h : PriorityQueue) (i : Nat), n ≤ rounds + i → n ≤ h.length →
      HeapExceptDown h n i →
      IsHeap (heap.downLoop rounds h i n) n ∧
        (heap.downLoop rounds h i n).length = h.length ∧
        (heap.downLoop rounds h i n).Perm h ∧
        ∀ k, n ≤ k → (heap.downLoop rounds h i n).item k = h.item k := by
  intro rounds
  induction rounds with
  | zero =>
    intro h i hr _ hinv
    rw [heap.downLoop]
    refine ⟨?_, rfl, List.Perm.refl _, fun _ _ => rfl⟩
    intro k hk0 hkn
    exact hinv.1 k hk0 hkn (by omega)
  | succ rounds ih =>
    intro h i hr hn hinv
    rw [heap.downLoop]
    by_cases hc : 2 * i + 1 ≥ n
    · rw [if_pos hc]
      refine ⟨?_, rfl, List.Perm.refl _, fun _ _ => rfl⟩
      intro k hk0 hkn
      exact hinv.1 k hk0 hkn (by omega)
    · rw [if_neg hc]
      obtain ⟨j, hj⟩ : ∃ j, j = if 2 * i + 1 + 1 < n ∧
          h.Less (2 * i + 1 + 1) (2 * i + 1) = true then 2 * i + 1 + 1 else 2 * i + 1 :=
        ⟨_, rfl⟩
      rw [← hj]
      obtain ⟨hjn, hpj, hij, hmin⟩ := chosen_child h (by omega) hj
      by_cases hstop : ¬ h.Less j i = true
      · rw [if_pos hstop]
        refine ⟨?_, rfl, List.Perm.refl _, fun _ _ => rfl⟩
        have hji : lessID (h.item j) (h.item i) = false := by
          unfold PriorityQueue.Less at hstop
          exact Bool.eq_false_iff.2 hstop
        intro k hk0 hkn
        by_cases hpk : (k - 1) / 2 = i
        · rw [hpk]
          exact lessID_false_trans hji (hmin k hk0 hkn hpk)
        · exact hinv.1 k hk0 hkn hpk
      · rw [if_neg hstop]
        have hless : lessID (h.item j) (h.item i) = true := by
          by_contra hne
          exact hstop hne
        have hstep := HeapExceptDown_Swap hjn hpj hij hn hmin hless hinv
        obtain ⟨r1, r2, r3, r4⟩ := ih (h.Swap i j) j (by omega)
          (by rw [Swap_length]; exact hn) hstep
        refine ⟨r1, by rw [r2, Swap_length],
          r3.trans (Swap_perm h (by omega) (by omega)), ?_⟩
        intro k hk
        rw [r4 k hk, Swap_item h (by omega) (by omega), if_neg (by omega), if_neg (by omega)]

/-! ## `heap.Push`, `heap.Pop` and the queues of the factory -/

/-- In a heap no item is before the first one. -/
theorem IsHeap.root_min {h : PriorityQueue} {n : Nat} (hh : IsHeap h n) :
    ∀ k, k < n → lessID (h.item k) (h.item 0) = false := by
  intro k
  induction k using Nat.strong_induction_on with
  | _ k ih =>
    intro hkn
    by_cases hk0 : k = 0
    · rw [hk0]
      exact lessID_irrefl _
    · have hp := ih ((k - 1) / 2) (by omega) (by omega)
      exact lessID_false_trans hp (hh k (by omega) hkn)

/-- `heap.Push` on a heap gives a heap with one more item, the pushed one. -/
theorem heap_Push_spec {h : PriorityQueue} (x : ID) (hh : IsHeap h h.length) :
    IsHeap (heap.Push h x) (h.length + 1) ∧ (heap.Push h x).length = h.length + 1 ∧
      (heap.Push h x).Perm (x :: h) := by
  have hlen : (h.Push x).length = h.length + 1 := by
    unfold PriorityQueue.Push
    rw [List.length_append]
    rfl
  have hitem : ∀ k, k < h.length → (h.Push x).item k = h.item k := by
    intro k hk
    unfold PriorityQueue.Push PriorityQueue.item
    exact List.getD_append h [x] default k hk
  have hinv : HeapExceptUp (h.Push x) (h.length + 1) h.length := by
    constructor
    · intro k hk0 hkn hkj
      rw [hitem k (by omega), hitem _ (by omega)]
      exact hh k hk0 (by omega)
    · intro k hk0 hkn hpk hj0
      omega
  unfold heap.Push heap.up PriorityQueue.Len
  rw [hlen, Nat.add_sub_cancel]
  obtain ⟨r1, r2, r3⟩ := upLoop_spec (h.length + 1) h.length (h.Push x) h.length
    (Nat.le_refl _) (by omega) (by omega) hinv
  refine ⟨r1, by rw [r2, hlen], r3.trans ?_⟩
  unfold PriorityQueue.Push
  exact List.perm_append_singleton x h

/-- `heap.Pop` on a heap that is not empty returns its first item and leaves a heap of the
other items. -/
theorem heap_Pop_spec {h : PriorityQueue} (hh : IsHeap h h.length) (hne : h ≠ []) :
    IsHeap (heap.Pop h).1 (heap.Pop h).1.length ∧
      (heap.Pop h).1.length + 1 = h.length ∧ (heap.Pop h).2 = h.item 0 ∧
      h.Perm ((heap.Pop h).2 :: (heap.Pop h).1) := by
  have hpos : 0 < h.length := List.length_pos.2 hne
  have hs := Swap_item h hpos (show h.length - 1 < h.length by omega)
  have hinv : HeapExceptDown (h.Swap 0 (h.length - 1)) (h.length - 1) 0 := by
    constructor
    · intro k hk0 hkn hpk
      rw [hs k, hs ((k - 1) / 2), if_neg (by omega), if_neg (by omega), if_neg (by omega),
        if_neg hpk]
      exact hh k hk0 (by omega)
    · intro k _ _ _ h0
      omega
  obtain ⟨r1, r2, r3, r4⟩ := downLoop_spec (h.length - 1) (h.length - 1)
    (h.Swap 0 (h.length - 1)) 0 (by omega) (by rw [Swap_length]; omega) hinv
  unfold heap.Pop heap.down PriorityQueue.Len PriorityQueue.Pop
  generalize heap.downLoop (h.length - 1) (h.Swap 0 (h.length - 1)) 0 (h.length - 1) = h2
    at r1 r2 r3 r4
  rw [Swap_length] at r2
  have h2ne : h2 ≠ [] := List.length_pos.1 (by omega)
  have hx : h2.item (h2.length - 1) = h.item 0 := by
    rw [r2, r4 _ (Nat.le_refl _), hs, if_pos rfl]
  have hlast : h2.getLast h2ne = h2.item (h2.length - 1) := by
    rw [List.getLast_eq_getElem]
    unfold PriorityQueue.item
    rw [List.getD_eq_getElem h2 default (by omega)]
  dsimp only
  refine ⟨?_, ?_, hx, ?_⟩
  · intro k hk0 hkn
    rw [List.length_dropLast, r2] at hkn
    have hd : ∀ m, m < h.length - 1 → PriorityQueue.item h2.dropLast m = h2.item m := by
      intro m hm
      unfold PriorityQueue.item
      rw [List.getD_eq_getElem?_getD, List.getD_eq_getElem?_getD, List.getElem?_dropLast,
        if_pos (by omega)]
    rw [hd k hkn, hd _ (by omega)]
    exact r1 k hk0 hkn
  · rw [List.length_dropLast, r2]
    omega
  · have hperm : h2.Perm (h2.item (h2.length - 1) :: h2.dropLast) := by
      have := List.perm_append_singleton (h2.getLast h2ne) h2.dropLast
      rw [List.dropLast_append_getLast h2ne, hlast] at this
      exact this
    exact ((r3.trans (Swap_perm h hpos (by omega))).symm).trans hperm

/-- Every queue of the factory is a heap. -/
theorem Reachable.isHeap {q : PriorityQueue} (hq : Reachable q) : IsHeap q q.length := by
  induction hq with
  | empty =>
    intro k _ hk
    exact absurd hk (Nat.not_lt_zero _)
  | push q x _ ih =>
    obtain ⟨r1, r2, -⟩ := heap_Push_spec x ih
    rw [r2]
    exact r1
  | pop q _ hne ih =>
    exact (heap_Pop_spec ih hne).1

/-- C16: for every queue reached from the empty queue by pushes and pops of
`container/heap`, a `heap.Pop` on the queue, when it is not empty, removes exactly one
item and returns an item `x` such that every item `y` of the queue has
`x.timestamp < y.timestamp`, or `x.timestamp = y.timestamp` and `x.IDNum <= y.IDNum`;
the queue it leaves holds exactly the other items. -/
theorem C16_pop_returns_minimum (q : PriorityQueue) (hq : Reachable q) (hne : q ≠ []) :
    (heap.Pop q).1.length + 1 = q.length ∧
    (∀ y ∈ q, (heap.Pop q).2.timestamp < y.timestamp ∨
      ((heap.Pop q).2.timestamp = y.timestamp ∧ (heap.Pop q).2.IDNum ≤ y.IDNum)) ∧
    q.Perm ((heap.Pop q).2 :: (heap.Pop q).1) := by
  have hh := hq.isHeap
  obtain ⟨-, r2, r3, r4⟩ := heap_Pop_spec hh hne
  refine ⟨r2, ?_, r4⟩
  intro y hy
  obtain ⟨k, hk, hky⟩ := List.mem_iff_getElem.1 hy
  have hmin := hh.root_min k hk
  have hitem : PriorityQueue.item q k = y := by
    unfold PriorityQueue.item
    rw [List.getD_eq_getElem q default hk, hky]
  rw [hitem, ← r3, lessID_false_iff] at hmin
  omega

/-- C16 (witness): the queue after pushing the identifiers 5 (time stamp 30), 7 (time
stamp 10) and 2 (time stamp 10): the pop returns 2 at time stamp 10 and leaves the other
two. -/
theorem C16_pop_returns_minimum_witness :
    heap.Push (heap.Push (heap.Push [] ⟨5, 30⟩) ⟨7, 10⟩) ⟨2, 10⟩ =
      [⟨2, 10⟩, ⟨5, 30⟩, ⟨7, 10⟩] ∧
    heap.Pop [⟨2, 10⟩, ⟨5, 30⟩, ⟨7, 10⟩] = ([⟨7, 10⟩, ⟨5, 30⟩], ⟨2, 10⟩) ∧
    (heap.Pop
        (heap.Push (heap.Push (heap.Push [] ⟨5, 30⟩) ⟨7, 10⟩) ⟨2, 10⟩)).1.length + 1 =
      (heap.Push (heap.Push (heap.Push [] ⟨5, 30⟩) ⟨7, 10⟩) ⟨2, 10⟩).length :=
  ⟨by decide, by decide,
    (C16_pop_returns_minimum _
      (Reachable.push _ _ (Reachable.push _ _ (Reachable.push _ _ Reachable.empty)))
      (by decide)).1⟩

/-! ## Draining the queue without concurrent pushes -/

/-- Rounds of `Consume` on a queue of the factory deliver items of that queue. -/
theorem consumeRounds_subset (rounds : Nat) :
    ∀ q : PriorityQueue, Reachable q → ∀ y ∈ consumeRounds rounds q, y ∈ q := by
  induction rounds with
  | zero =>
    intro q _ y hy
    cases hy
  | succ rounds ih =>
    intro q hq y hy
    rw [consumeRounds] at hy
    by_cases hlen : q.Len > 0
    · rw [if_pos hlen] at hy
      have hne : q ≠ [] := List.length_pos.1 hlen
      obtain ⟨-, -, -, hperm⟩ := heap_Pop_spec hq.isHeap hne
      rcases List.mem_cons.1 hy with h | h
      · rw [h]
        exact hperm.symm.subset (List.mem_cons_self _ _)
      · exact hperm.symm.subset (List.mem_cons_of_mem _ (ih _ (Reachable.pop q hq hne) y h))
    · rw [if_neg hlen] at hy
      exact ih q hq y hy

/-- With no push in between, the rounds of `Consume` on a queue of the factory deliver the
items in the order of the queue, so with time stamps that never decrease. -/
theorem consumeRounds_sorted (rounds : Nat) :
    ∀ q : PriorityQueue, Reachable q →
      (consumeRounds rounds q).Pairwise (fun a b => a.timestamp ≤ b.timestamp) := by
  induction rounds with
  | zero =>
    intro q _
    exact List.Pairwise.nil
  | succ rounds ih =>
    intro q hq
    rw [consumeRounds]
    by_cases hlen : q.Len > 0
    · rw [if_pos hlen]
      have hne : q ≠ [] := List.length_pos.1 hlen
      have hh := hq.isHeap
      obtain ⟨-, -, hx, hperm⟩ := heap_Pop_spec hh hne
      refine List.pairwise_cons.2 ⟨?_, ih _ (Reachable.pop q hq hne)⟩
      intro y hy
      have hyq : y ∈ q :=
        hperm.symm.subset
          (List.mem_cons_of_mem _ (consumeRounds_subset rounds _ (Reachable.pop q hq hne) y hy))
      obtain ⟨k, hk, hky⟩ := List.mem_iff_getElem.1 hyq
      have hmin := hh.root_min k hk
      have hitem : PriorityQueue.item q k = y := by
        unfold PriorityQueue.item
        rw [List.getD_eq_getElem q default hk, hky]
      rw [hitem, ← hx, lessID_false_iff] at hmin
      omega
    · rw [if_neg hlen]
      exact ih q hq

/-- A push between two pops can deliver an earlier time stamp after a later one: the queue
orders the items it holds at the moment of a pop only. Here the identifier with time stamp
20 is pushed and popped before the identifier with time stamp 10 is pushed. -/
theorem pop_order_with_late_push :
    heap.Pop (heap.Push [] ⟨1, 20⟩) = ([], ⟨1, 20⟩) ∧
    heap.Pop (heap.Push (heap.Pop (heap.Push [] ⟨1, 20⟩)).1 ⟨2, 10⟩) = ([], ⟨2, 10⟩) ∧
    ¬ ((20 : Int) ≤ 10) := by
  decide

/-! ## A run of the factory -/

/-- A worker pushes at most as many identifiers as it has rounds. -/
theorem doWorkLoop_length_le (todo : Nat) :
    ∀ (g : Generator) (rs : List (Int × Int)), (doWorkLoop todo g rs).length ≤ todo := by
  induction todo with
  | zero =>
    intro g rs
    rw [doWorkLoop]
    exact Nat.le_refl _
  | succ todo ih =>
    intro g rs
    cases rs with
    | nil =>
      rw [doWorkLoop]
      exact Nat.zero_le _
    | cons r rest =>
      rw [doWorkLoop]
      cases hres : (GetNextID g r.1 r.2).result with
      | error e =>
        rw [pushOrBreak]
        exact Nat.zero_le _
      | ok i =>
        rw [pushOrBreak, List.length_cons]
        exact Nat.succ_le_succ (ih _ rest)

/-- The rank of a live state in the order of states is at most
`2 ^ TimeBit * 2 ^ SequenceBit`. -/
theorem Live.rank_le {cfg : IDConfig} {g : Generator} (hL : Live cfg g) :
    g.timeCounter * 2 ^ cfg.SequenceBit + g.seqenceNum ≤
      2 ^ cfg.TimeBit * 2 ^ cfg.SequenceBit := by
  obtain ⟨-, htb, -, hsb, -, -, hseq, htc⟩ := hL
  rw [htb] at htc
  rw [hsb] at hseq
  rcases htc with h | ⟨h, h0⟩
  · have h1 : (g.timeCounter + 1) * 2 ^ cfg.SequenceBit ≤
        2 ^ cfg.TimeBit * 2 ^ cfg.SequenceBit := Nat.mul_le_mul_right _ h
    rw [Nat.add_mul, Nat.one_mul] at h1
    omega
  · rw [h, h0]
    exact Nat.le_refl _

/-- A later live state has a larger rank. -/
theorem rank_lt_of_Before {cfg : IDConfig} {a b : Generator} (ha : Live cfg a)
    (hb : Live cfg b) (hab : Before a b) :
    a.timeCounter * 2 ^ cfg.SequenceBit + a.seqenceNum <
      b.timeCounter * 2 ^ cfg.SequenceBit + b.seqenceNum := by
  obtain ⟨-, -, -, asb, -, -, aseq, -⟩ := ha
  obtain ⟨-, -, -, bsb, -, -, bseq, -⟩ := hb
  rw [asb] at aseq
  rw [bsb] at bseq
  unfold Before at hab
  rcases hab with h | ⟨h, h2⟩
  · have h1 : (a.timeCounter + 1) * 2 ^ cfg.SequenceBit ≤
        b.timeCounter * 2 ^ cfg.SequenceBit := Nat.mul_le_mul_right _ h
    rw [Nat.add_mul, Nat.one_mul] at h1
    omega
  · rw [h]
    omega

/-- A worker whose generator is live pushes at most as many identifiers as there are
states above the state of its generator: at most `2 ^ TimeBit * 2 ^ SequenceBit` from a
new generator, whatever its quota and the clock readings are. -/
theorem doWorkLoop_length_of_Live (cfg : IDConfig) (todo : Nat) :
    ∀ (g : Generator) (rs : List (Int × Int)), Live cfg g →
      (doWorkLoop todo g rs).length + (g.timeCounter * 2 ^ cfg.SequenceBit + g.seqenceNum) ≤
        2 ^ cfg.TimeBit * 2 ^ cfg.SequenceBit := by
  induction todo with
  | zero =>
    intro g rs hL
    rw [doWorkLoop, List.length_nil, Nat.zero_add]
    exact hL.rank_le
  | succ todo ih =>
    intro g rs hL
    cases rs with
    | nil =>
      rw [doWorkLoop, List.length_nil, Nat.zero_add]
      exact hL.rank_le
    | cons r rest =>
      rw [doWorkLoop]
      rcases GetNextID_live r.1 r.2 hL with ⟨i, hres, hL1, hB⟩ | ⟨hres, -⟩ | hres
      · rw [hres, pushOrBreak, List.length_cons]
        have h1 := ih _ rest hL1
        have h2 := rank_lt_of_Before hL hL1 hB
        omega
      · rw [hres, pushOrBreak, List.length_nil, Nat.zero_add]
        exact hL.rank_le
      · rw [hres, pushOrBreak, List.length_nil, Nat.zero_add]
        exact hL.rank_le

/-- The run before any step has pushed and delivered nothing. -/
theorem RunInvariant.start (total : Nat) : RunInvariant total [] FactoryRun.start :=
  ⟨List.Perm.refl _, Reachable.empty, rfl, fun h => absurd h (by decide)⟩

/-- A step of a run keeps what holds of a run, with the identifier of a push added to the
pushed ones. -/
theorem RunInvariant.step {total : Nat} {pushed : List ID} {s : FactoryRun}
    (h : RunInvariant total pushed s) (e : Event) :
    RunInvariant total (pushed ++ pushesOf [e]) (stepEvent total s e) := by
  obtain ⟨hperm, hreach, hcnt, hret⟩ := h
  cases e with
  | push x =>
    refine ⟨?_, Reachable.push _ x hreach, hcnt, hret⟩
    have h1 := (heap_Push_spec x hreach.isHeap).2.2
    show (s.delivered ++ heap.Push s.queue x).Perm (pushed ++ [x])
    have h2 : (s.delivered ++ heap.Push s.queue x).Perm (s.delivered ++ x :: s.queue) :=
      List.Perm.append_left _ h1
    have h3 : (s.delivered ++ x :: s.queue).Perm (x :: (s.delivered ++ s.queue)) :=
      List.perm_middle
    have h4 : (x :: (s.delivered ++ s.queue)).Perm (x :: pushed) := List.Perm.cons x hperm
    have h5 : (x :: pushed).Perm (pushed ++ [x]) := (List.perm_append_singleton x pushed).symm
    exact h2.trans (h3.trans (h4.trans h5))
  | poll =>
    show RunInvariant total (pushed ++ []) (consumeRound total s)
    rw [List.append_nil]
    unfold consumeRound
    by_cases hr : s.returned = true
    · rw [if_pos hr]
      exact ⟨hperm, hreach, hcnt, hret⟩
    · rw [if_neg hr]
      by_cases hlen : s.queue.Len > 0
      · rw [if_pos hlen]
        have hne : s.queue ≠ [] := List.length_pos.1 hlen
        obtain ⟨-, -, -, hp⟩ := heap_Pop_spec hreach.isHeap hne
        refine ⟨?_, Reachable.pop _ hreach hne, ?_, ?_⟩
        · show ((s.delivered ++ [(heap.Pop s.queue).2]) ++ (heap.Pop s.queue).1).Perm pushed
          rw [List.append_assoc, List.singleton_append]
          exact (List.Perm.append_left _ hp.symm).trans hperm
        · show add64 s.counter 1 = (s.delivered ++ [(heap.Pop s.queue).2]).length % 2 ^ 64
          rw [List.length_append, List.length_singleton, hcnt]
          unfold add64
          omega
        · intro hd
          exact of_decide_eq_true hd
      · rw [if_neg hlen]
        refine ⟨hperm, hreach, hcnt, ?_⟩
        intro hd
        exact of_decide_eq_true hd

/-- The pushes of a schedule made of two parts. -/
theorem pushesOf_cons (e : Event) (rest : List Event) :
    pushesOf (e :: rest) = pushesOf [e] ++ pushesOf rest := by
  cases e with
  | push x => rfl
  | poll => rfl

/-- A run keeps what holds of a run, with the pushes of its schedule added. -/
theorem RunInvariant.run (total : Nat) (ev : List Event) :
    ∀ (pushed : List ID) (s : FactoryRun), RunInvariant total pushed s →
      RunInvariant total (pushed ++ pushesOf ev) (runEvents total s ev) := by
  induction ev with
  | nil =>
    intro pushed s h
    rw [runEvents]
    show RunInvariant total (pushed ++ []) s
    rw [List.append_nil]
    exact h
  | cons e rest ih =>
    intro pushed s h
    rw [runEvents, pushesOf_cons, ← List.append_assoc]
    exact ih _ _ (h.step e)

/-- A run from the start of the factory along any schedule: what holds of it. -/
theorem RunInvariant.of_start (total : Nat) (ev : List Event) :
    RunInvariant total (pushesOf ev) (runEvents total FactoryRun.start ev) := by
  have h := RunInvariant.run total ev [] FactoryRun.start (RunInvariant.start total)
  rw [List.nil_append] at h
  exact h

/-- A schedule of rounds of `Consume` pushes nothing. -/
theorem pushesOf_pollsOnly (n : Nat) : pushesOf (pollsOnly n) = [] := by
  induction n with
  | zero => rfl
  | succ n ih =>
    show pushesOf (Event.poll :: pollsOnly n) = []
    rw [pushesOf]
    exact ih

/-- With no push in between, the rounds of `Consume` add to the delivered identifiers
some of the queue, with time stamps that never decrease. -/
theorem pollsOnly_sorted (total : Nat) (n : Nat) :
    ∀ s : FactoryRun, Reachable s.queue →
      ∃ l, (runEvents total s (pollsOnly n)).delivered = s.delivered ++ l ∧
        l.Pairwise (fun a b => a.timestamp ≤ b.timestamp) ∧ ∀ y ∈ l, y ∈ s.queue := by
  induction n with
  | zero =>
    intro s _
    refine ⟨[], ?_, List.Pairwise.nil, ?_⟩
    · show s.delivered = s.delivered ++ []
      rw [List.append_nil]
    · intro y hy
      cases hy
  | succ n ih =>
    intro s hq
    show ∃ l, (runEvents total s (Event.poll :: pollsOnly n)).delivered = s.delivered ++ l ∧
        l.Pairwise (fun a b => a.timestamp ≤ b.timestamp) ∧ ∀ y ∈ l, y ∈ s.queue
    rw [runEvents]
    show ∃ l, (runEvents total (consumeRound total s) (pollsOnly n)).delivered =
          s.delivered ++ l ∧
        l.Pairwise (fun a b => a.timestamp ≤ b.timestamp) ∧ ∀ y ∈ l, y ∈ s.queue
    unfold consumeRound
    by_cases hr : s.returned = true
    · rw [if_pos hr]
      exact ih s hq
    · rw [if_neg hr]
      by_cases hlen : s.queue.Len > 0
      · rw [if_pos hlen]
        have hne : s.queue ≠ [] := List.length_pos.1 hlen
        have hh := hq.isHeap
        obtain ⟨-, -, hx, hperm⟩ := heap_Pop_spec hh hne
        obtain ⟨l, hl, hsorted, hsub⟩ := ih
          { queue := (heap.Pop s.queue).1
            delivered := s.delivered ++ [(heap.Pop s.queue).2]
            counter := add64 s.counter 1
            returned := decide (add64 s.counter 1 = total) } (Reachable.pop _ hq hne)
        refine ⟨(heap.Pop s.queue).2 :: l, ?_, ?_, ?_⟩
        · rw [hl]
          show (s.delivered ++ [(heap.Pop s.queue).2]) ++ l =
            s.delivered ++ (heap.Pop s.queue).2 :: l
          rw [List.append_assoc, List.singleton_append]
        · refine List.pairwise_cons.2 ⟨?_, hsorted⟩
          intro y hy
          have hyq : y ∈ s.queue := hperm.symm.subset (List.mem_cons_of_mem _ (hsub y hy))
          obtain ⟨k, hk, hky⟩ := List.mem_iff_getElem.1 hyq
          have hmin := hh.root_min k hk
          have hitem : PriorityQueue.item s.queue k = y := by
            unfold PriorityQueue.item
            rw [List.getD_eq_getElem s.queue default hk, hky]
          rw [hitem, ← hx, lessID_false_iff] at hmin
          omega
        · intro y hy
          rcases List.mem_cons.1 hy with h | h
          · rw [h]
            exact hperm.symm.subset (List.mem_cons_self _ _)
          · exact hperm.symm.subset (List.mem_cons_of_mem _ (hsub y h))
      · rw [if_neg hlen]
        exact ih { s with returned := decide (s.counter = total) } hq

/-- When exactly `total` identifiers were pushed, with `total` a `uint64`, a run in which
`Consume` has left its loop has delivered all of them. -/
theorem RunInvariant.complete_of_returned {total : Nat} {pushed : List ID} {s : FactoryRun}
    (h : RunInvariant total pushed s) (hp : pushed.length = total) (ht : total < 2 ^ 64)
    (hr : s.returned = true) : s.delivered.length = total ∧ s.queue = [] := by
  obtain ⟨hperm, -, hcnt, hret⟩ := h
  have h1 := hperm.length_eq
  rw [List.length_append] at h1
  have h2 := hret hr
  have h3 : s.delivered.length = total := by omega
  refine ⟨h3, List.length_eq_zero.1 ?_⟩
  omega

/-- When exactly `total` identifiers were pushed, with `total` a `uint64`, more rounds of
`Consume` than the queue has items deliver all of them, and `Consume` leaves its loop. -/
theorem pollsOnly_drain (total : Nat) (pushed : List ID) (hp : pushed.length = total)
    (ht : total < 2 ^ 64) (n : Nat) :
    ∀ s : FactoryRun, RunInvariant total pushed s → s.queue.length < n →
      (runEvents total s (pollsOnly n)).returned = true ∧
      (runEvents total s (pollsOnly n)).delivered.length = total ∧
      (runEvents total s (pollsOnly n)).delivered.Perm pushed := by
  have hfin : ∀ (k : Nat) (s : FactoryRun), RunInvariant total pushed s → s.returned = true →
      (runEvents total s (pollsOnly k)).returned = true ∧
      (runEvents total s (pollsOnly k)).delivered.length = total ∧
      (runEvents total s (pollsOnly k)).delivered.Perm pushed := by
    intro k s hs hr
    have hs2 := RunInvariant.run total (pollsOnly k) pushed s hs
    rw [pushesOf_pollsOnly, List.append_nil] at hs2
    have hstay : ∀ (j : Nat) (u : FactoryRun), u.returned = true →
        runEvents total u (pollsOnly j) = u := by
      intro j
      induction j with
      | zero =>
        intro u _
        rfl
      | succ j ihj =>
        intro u hu
        show runEvents total u (Event.poll :: pollsOnly j) = u
        rw [runEvents]
        show runEvents total (consumeRound total u) (pollsOnly j) = u
        unfold consumeRound
        rw [if_pos hu]
        exact ihj u hu
    rw [hstay k s hr]
    obtain ⟨h1, h2⟩ := hs.complete_of_returned hp ht hr
    refine ⟨hr, h1, ?_⟩
    have h3 := hs.1
    rw [h2, List.append_nil] at h3
    exact h3
  induction n with
  | zero =>
    intro s _ hlt
    exact absurd hlt (Nat.not_lt_zero _)
  | succ n ih =>
    intro s hs hlt
    by_cases hr : s.returned = true
    · exact hfin _ s hs hr
    · have hstep := hs.step Event.poll
      rw [show pushesOf [Event.poll] = [] from rfl, List.append_nil] at hstep
      show (runEvents total s (Event.poll :: pollsOnly n)).returned = true ∧
        (runEvents total s (Event.poll :: pollsOnly n)).delivered.length = total ∧
        (runEvents total s (Event.poll :: pollsOnly n)).delivered.Perm pushed
      rw [runEvents]
      by_cases hlen : s.queue.Len > 0
      · have hne : s.queue ≠ [] := List.length_pos.1 hlen
        obtain ⟨-, hl, -, -⟩ := heap_Pop_spec hs.2.1.isHeap hne
        refine ih _ hstep ?_
        show (consumeRound total s).queue.length < n
        unfold consumeRound
        rw [if_neg hr, if_pos hlen]
        show (heap.Pop s.queue).1.length < n
        omega
      · have hq0 : s.queue = [] := by
          cases hq : s.queue with
          | nil => rfl
          | cons a l =>
            exfalso
            apply hlen
            show 0 < s.queue.length
            rw [hq]
            exact Nat.succ_pos _
        have hret : (stepEvent total s Event.poll).returned = true := by
          show (consumeRound total s).returned = true
          unfold consumeRound
          rw [if_neg hr, if_neg hlen]
          show decide (s.counter = total) = true
          apply decide_eq_true
          obtain ⟨hperm, -, hcnt, -⟩ := hs
          have h1 := hperm.length_eq
          rw [hq0, List.append_nil] at h1
          rw [hcnt, h1, hp]
          exact Nat.mod_eq_of_lt ht
        exact hfin _ _ hstep hret

/-- Lists of the same length `q`, put together, have `q` items each. -/
theorem length_flatten_of_length_eq (q : Nat) :
    ∀ L : List (List ID), (∀ o ∈ L, o.length = q) → L.flatten.length = L.length * q := by
  intro L
  induction L with
  | nil =>
    intro _
    exact (Nat.zero_mul q).symm
  | cons o rest ih =>
    intro h
    rw [List.flatten_cons, List.length_append, List.length_cons,
      h o (List.mem_cons_self _ _), ih (fun x hx => h x (List.mem_cons_of_mem _ hx)),
      Nat.add_mul, Nat.one_mul, Nat.add_comm]

/-- For a quota that is not negative and a product within `uint64`, `totalWork` is the
product of the number of workers and the quota. -/
theorem totalWork_eq (c : FactoryConfig) (hq : 0 ≤ c.NumOfIDsPerWorker)
    (h : c.NumOfWorkers * c.NumOfIDsPerWorker.toNat < 2 ^ 64) :
    totalWork c = c.NumOfWorkers * c.NumOfIDsPerWorker.toNat := by
  unfold totalWork
  rcases Nat.eq_zero_or_pos c.NumOfWorkers with h0 | hpos
  · rw [h0, Nat.zero_mul, Nat.zero_mul]
    rfl
  · have h1 : c.NumOfIDsPerWorker.toNat < 2 ^ 64 := by
      have h2 : 1 * c.NumOfIDsPerWorker.toNat ≤ c.NumOfWorkers * c.NumOfIDsPerWorker.toNat :=
        Nat.mul_le_mul_right _ hpos
      omega
    have h3 : c.NumOfIDsPerWorker % 2 ^ 64 = c.NumOfIDsPerWorker := by
      apply Int.emod_eq_of_lt hq
      omega
    rw [h3]
    exact Nat.mod_eq_of_lt h

/-- One worker: the identifiers pushed are those of its `doWork`. -/
theorem producedBy_single (w : Worker) (rs : List (Int × Int)) :
    producedBy [w] [rs] = doWork w rs := by
  show (doWork w rs ++ []) = doWork w rs
  rw [List.append_nil]

/-- A run in which fewer identifiers were pushed than `total` has delivered fewer than
`total` identifiers, and `Consume` has not left its loop. -/
theorem run_short_of_total (total : Nat) (ev : List Event)
    (hlt : (pushesOf ev).length < total) :
    (runEvents total FactoryRun.start ev).delivered.length < total ∧
    (runEvents total FactoryRun.start ev).returned = false := by
  obtain ⟨hperm, -, hcnt, hret⟩ := RunInvariant.of_start total ev
  have h1 := hperm.length_eq
  rw [List.length_append] at h1
  refine ⟨by omega, ?_⟩
  cases hr : (runEvents total FactoryRun.start ev).returned with
  | false => rfl
  | true =>
    exfalso
    have h4 := hret hr
    omega

/-! ## C17: what a run of the factory delivers -/

/-- C17 (counterexample): two runs of the factory against "exactly W×Q identifiers, with
time stamps that never decrease". With 2 workers, 1 identifier each, layout 38/6/16: worker
1 reads the clock at 20 and pushes, `Consume` pops, then worker 0, which had read the clock
at 10, pushes and `Consume` pops: both identifiers are delivered and `Consume` leaves its
loop, with time stamps 20 then 10. With 1 worker, 9 identifiers, layout 2/6/1: whatever the
clock readings and the schedule are, the worker pushes fewer than 9 identifiers, fewer than
9 are delivered and `Consume` never leaves its loop. -/
theorem C17_counterexample_order_and_count :
    NewIDFactory ⟨2, 1, [], some ⟨38, 6, 16, 0, 1000000⟩⟩ =
      .ok ⟨[], ⟨2, 1, [], some ⟨38, 6, 16, 0, 1000000⟩⟩, 1⟩ ∧
    hireWorkers ⟨[], ⟨2, 1, [], some ⟨38, 6, 16, 0, 1000000⟩⟩, 1⟩
        (fun _ => .ok 7) (fun _ => 0) =
      .ok [⟨⟨0, 0, 0, 38, 6, 16, 1000000, 0⟩, 1⟩, ⟨⟨0, 1, 0, 38, 6, 16, 1000000, 0⟩, 1⟩] ∧
    doWork ⟨⟨0, 0, 0, 38, 6, 16, 1000000, 0⟩, 1⟩ [(5, 10)] = [⟨1, 10⟩] ∧
    doWork ⟨⟨0, 1, 0, 38, 6, 16, 1000000, 0⟩, 1⟩ [(15, 20)] = [⟨65537, 20⟩] ∧
    factoryRun ⟨[], ⟨2, 1, [], some ⟨38, 6, 16, 0, 1000000⟩⟩, 1⟩
        [.push ⟨65537, 20⟩, .poll, .push ⟨1, 10⟩, .poll] =
      ⟨[], [⟨65537, 20⟩, ⟨1, 10⟩], 2, true⟩ ∧
    ¬ ((20 : Int) ≤ 10) ∧
    NewIDFactory ⟨1, 9, [], some ⟨2, 6, 1, 0, 1000000⟩⟩ =
      .ok ⟨[], ⟨1, 9, [], some ⟨2, 6, 1, 0, 1000000⟩⟩, 1⟩ ∧
    hireWorkers ⟨[], ⟨1, 9, [], some ⟨2, 6, 1, 0, 1000000⟩⟩, 1⟩
        (fun _ => .ok 7) (fun _ => 0) =
      .ok [⟨⟨0, 0, 0, 2, 6, 1, 1000000, 0⟩, 9⟩] ∧
    totalWork ⟨1, 9, [], some ⟨2, 6, 1, 0, 1000000⟩⟩ = 9 ∧
    ∀ (rs : List (Int × Int)) (ev : List Event),
      (pushesOf ev).Perm (producedBy [⟨⟨0, 0, 0, 2, 6, 1, 1000000, 0⟩, 9⟩] [rs]) →
      (doWork ⟨⟨0, 0, 0, 2, 6, 1, 1000000, 0⟩, 9⟩ rs).length < 9 ∧
      (factoryRun ⟨[], ⟨1, 9, [], some ⟨2, 6, 1, 0, 1000000⟩⟩, 1⟩ ev).delivered.length < 9 ∧
      (factoryRun ⟨[], ⟨1, 9, [], some ⟨2, 6, 1, 0, 1000000⟩⟩, 1⟩ ev).returned = false := by
  refine ⟨by decide, by decide, by decide, by decide, by decide, by decide, by decide,
    by decide, by decide, ?_⟩
  intro rs ev hpush
  rw [producedBy_single] at hpush
  have hv : ValidConfig ⟨2, 6, 1, 0, 1000000⟩ := by decide
  have hgen : NewIDGenerator (some ⟨2, 6, 1, 0, 1000000⟩) (.ok 7) 0 =
      .ok ⟨0, 0, 0, 2, 6, 1, 1000000, 0⟩ := by decide
  have hlen : (doWorkLoop 9 ⟨0, 0, 0, 2, 6, 1, 1000000, 0⟩ rs).length + (0 * 2 ^ 1 + 0) ≤
      2 ^ 2 * 2 ^ 1 :=
    doWorkLoop_length_of_Live ⟨2, 6, 1, 0, 1000000⟩ 9 _ rs (Live_of_valid hv hgen)
  have hlen2 : (doWork ⟨⟨0, 0, 0, 2, 6, 1, 1000000, 0⟩, 9⟩ rs).length ≤ 8 := by
    show (doWorkLoop 9 ⟨0, 0, 0, 2, 6, 1, 1000000, 0⟩ rs).length ≤ 8
    omega
  have h2 := hpush.length_eq
  have h5 : totalWork ⟨1, 9, [], some ⟨2, 6, 1, 0, 1000000⟩⟩ = 9 := by decide
  have hshort := run_short_of_total 9 ev (by omega)
  refine ⟨by omega, ?_, ?_⟩
  · show (runEvents (totalWork ⟨1, 9, [], some ⟨2, 6, 1, 0, 1000000⟩⟩) FactoryRun.start
      ev).delivered.length < 9
    rw [h5]
    exact hshort.1
  · show (runEvents (totalWork ⟨1, 9, [], some ⟨2, 6, 1, 0, 1000000⟩⟩) FactoryRun.start
      ev).returned = false
    rw [h5]
    exact hshort.2

/-- C17: for a factory with W workers and Q identifiers per worker, take any schedule of
pushes by the workers and rounds of `Consume` under the mutex whose pushes are the
identifiers the workers have produced. Then the identifiers delivered and those still in
the queue are exactly the produced ones, none lost and none twice; the queue is one reached
by pushes and pops, so every pop returns a minimum of the queue at that moment; `Consume`
has left its loop only with its `uint64` count of delivered identifiers at `totalWork`; and
further rounds of `Consume` with no push in between deliver time stamps that never
decrease. When moreover every worker has pushed its Q identifiers, with Q not negative and
W×Q within `uint64`, then more rounds of `Consume` than the queue has items deliver
exactly W×Q identifiers, the produced ones, and `Consume` leaves its loop. -/
theorem C17_delivery_of_run (c : FactoryConfig) (m : IDFactory)
    (lookup : Nat → Except GenError Nat) (now : Nat → Int) (ws : List Worker)
    (rss : List (List (Int × Int))) (ev : List Event)
    (hm : NewIDFactory c = .ok m) (hw : hireWorkers m lookup now = .ok ws)
    (hpush : (pushesOf ev).Perm (producedBy ws rss)) :
    ((factoryRun m ev).delivered ++ (factoryRun m ev).queue).Perm (producedBy ws rss) ∧
    Reachable (factoryRun m ev).queue ∧
    ((factoryRun m ev).returned = true →
      (factoryRun m ev).delivered.length % 2 ^ 64 = totalWork c) ∧
    (∀ n, ∃ l, (thenPolls m (factoryRun m ev) n).delivered = (factoryRun m ev).delivered ++ l ∧
      l.Pairwise (fun a b => a.timestamp ≤ b.timestamp)) ∧
    (rss.length = ws.length →
      (∀ o ∈ List.zipWith doWork ws rss, o.length = c.NumOfIDsPerWorker.toNat) →
      0 ≤ c.NumOfIDsPerWorker →
      c.NumOfWorkers * c.NumOfIDsPerWorker.toNat < 2 ^ 64 →
      ∀ n, (factoryRun m ev).queue.length < n →
        (thenPolls m (factoryRun m ev) n).returned = true ∧
        (thenPolls m (factoryRun m ev) n).delivered.length =
          c.NumOfWorkers * c.NumOfIDsPerWorker.toNat ∧
        (thenPolls m (factoryRun m ev) n).delivered.Perm (producedBy ws rss)) := by
  have hmc : m.factoryConfig = c := (NewIDFactory_ok hm).1
  have hinv := RunInvariant.of_start (totalWork m.factoryConfig) ev
  have hinv0 := hinv
  obtain ⟨hperm, hreach, hcnt, hret⟩ := hinv
  refine ⟨hperm.trans hpush, hreach, ?_, ?_, ?_⟩
  · intro hr
    exact (hcnt.symm.trans (hret hr)).trans (congrArg totalWork hmc)
  · intro n
    obtain ⟨l, hl, hsorted, -⟩ := pollsOnly_sorted (totalWork m.factoryConfig) n _ hreach
    exact ⟨l, hl, hsorted⟩
  · intro hrss hall hq hprod n hn
    have hwlen : ws.length = c.NumOfWorkers := (hireWorkers_worker hm hw).1
    have htotal : totalWork m.factoryConfig = c.NumOfWorkers * c.NumOfIDsPerWorker.toNat := by
      rw [hmc]
      exact totalWork_eq c hq hprod
    have hplen : (pushesOf ev).length = totalWork m.factoryConfig := by
      rw [hpush.length_eq, htotal]
      unfold producedBy
      rw [length_flatten_of_length_eq _ _ hall, List.length_zipWith, hrss, Nat.min_self,
        hwlen]
    have hlt : totalWork m.factoryConfig < 2 ^ 64 := by
      rw [htotal]
      exact hprod
    obtain ⟨r1, r2, r3⟩ :=
      pollsOnly_drain (totalWork m.factoryConfig) (pushesOf ev) hplen hlt n _ hinv0 hn
    refine ⟨r1, ?_, r3.trans hpush⟩
    rw [← htotal]
    exact r2

/-- C17 at a run: 2 workers, 1 identifier each, layout 38/6/16; worker 1 has pushed its
identifier with time stamp 20, `Consume` has popped it, and worker 0 has pushed its
identifier with time stamp 10. Two more rounds of `Consume` deliver both identifiers and
end its loop. -/
theorem C17_delivery_of_run_witness :
    NewIDFactory ⟨2, 1, [], some ⟨38, 6, 16, 0, 1000000⟩⟩ =
      .ok ⟨[], ⟨2, 1, [], some ⟨38, 6, 16, 0, 1000000⟩⟩, 1⟩ ∧
    hireWorkers ⟨[], ⟨2, 1, [], some ⟨38, 6, 16, 0, 1000000⟩⟩, 1⟩
        (fun _ => .ok 7) (fun _ => 0) =
      .ok [⟨⟨0, 0, 0, 38, 6, 16, 1000000, 0⟩, 1⟩, ⟨⟨0, 1, 0, 38, 6, 16, 1000000, 0⟩, 1⟩] ∧
    (pushesOf [.push ⟨65537, 20⟩, .poll, .push ⟨1, 10⟩]).Perm
      (producedBy
        [⟨⟨0, 0, 0, 38, 6, 16, 1000000, 0⟩, 1⟩, ⟨⟨0, 1, 0, 38, 6, 16, 1000000, 0⟩, 1⟩]
        [[(5, 10)], [(15, 20)]]) ∧
    (thenPolls ⟨[], ⟨2, 1, [], some ⟨38, 6, 16, 0, 1000000⟩⟩, 1⟩
      (factoryRun ⟨[], ⟨2, 1, [], some ⟨38, 6, 16, 0, 1000000⟩⟩, 1⟩
        [.push ⟨65537, 20⟩, .poll, .push ⟨1, 10⟩]) 2).returned = true ∧
    (thenPolls ⟨[], ⟨2, 1, [], some ⟨38, 6, 16, 0, 1000000⟩⟩, 1⟩
      (factoryRun ⟨[], ⟨2, 1, [], some ⟨38, 6, 16, 0, 1000000⟩⟩, 1⟩
        [.push ⟨65537, 20⟩, .poll, .push ⟨1, 10⟩]) 2).delivered.length = 2 :=
  have hp : (pushesOf [.push ⟨65537, 20⟩, .poll, .push ⟨1, 10⟩]).Perm
      (producedBy
        [⟨⟨0, 0, 0, 38, 6, 16, 1000000, 0⟩, 1⟩, ⟨⟨0, 1, 0, 38, 6, 16, 1000000, 0⟩, 1⟩]
        [[(5, 10)], [(15, 20)]]) := by
    rw [show producedBy
        [⟨⟨0, 0, 0, 38, 6, 16, 1000000, 0⟩, 1⟩, ⟨⟨0, 1, 0, 38, 6, 16, 1000000, 0⟩, 1⟩]
        [[(5, 10)], [(15, 20)]] = [⟨1, 10⟩, ⟨65537, 20⟩] from by decide]
    exact List.Perm.swap _ _ _
  have h := (C17_delivery_of_run ⟨2, 1, [], some ⟨38, 6, 16, 0, 1000000⟩⟩
    ⟨[], ⟨2, 1, [], some ⟨38, 6, 16, 0, 1000000⟩⟩, 1⟩ (fun _ => .ok 7) (fun _ => 0)
    [⟨⟨0, 0, 0, 38, 6, 16, 1000000, 0⟩, 1⟩, ⟨⟨0, 1, 0, 38, 6, 16, 1000000, 0⟩, 1⟩]
    [[(5, 10)], [(15, 20)]] [.push ⟨65537, 20⟩, .poll, .push ⟨1, 10⟩]
    (by decide) (by decide) hp).2.2.2.2 rfl (by decide) (by decide) (by decide) 2 (by decide)
  ⟨by decide, by decide, hp, h.1, h.2.1⟩

end IDGenerator
